import Mathlib

/-!
Verification of the x2node-validators record validation/normalization engine.

The development shallowly embeds the engine's JavaScript sources:

* `src/lib/record-normalizer.js` — the recursive traversal (`normalize`,
  `normalizeChildren`, `getValidators`);
* `src/lib/validation-context.js` — the validation context (pointer stack,
  error reporting, `getResult`);
* `src/lib/validation-errors.js` — the error sink (`ValidationErrors`);
* `src/lib/message-resolver.js` — the locale-aware message resolver;
* `lib/standard.js` — the standard validator definitions (`isEmpty`,
  `required`, `rangeDef`).

Modelling conventions:

* JavaScript values become the inductive `JSValue`; `undefined` and `null`
  are distinct constructors, numbers are modelled as integers (no claim
  involves fractional record data), objects are insertion-ordered
  association lists, exactly as `Object.keys` exposes them.
* In-place mutation of the record is purified into explicit state passing:
  every function that mutates a container in the source returns the updated
  container here.  JavaScript reference identity (`!==`) is modelled by
  structural inequality of `JSValue`, its value-level observable.
* A validator function `(ctx, value) -> value` may read the error sink, the
  current pointer and the containers chain through the context and report
  errors via `addError`/`addErrorFor` (which only append to the sink); it is
  therefore modelled as a pure function from that read-only view to the list
  of reported `(address, message)` pairs and the resulting value.
* The engine stores rendered message text in the sink; message rendering is
  an injective wrapper around the message reference that does not affect any
  addressing or emptiness property, so the engine model stores the raw
  message reference and the message resolver is verified separately.
* Record element pointers come from the external `x2node-pointers`
  collaborator; as in RFC 6901, a pointer prints as the concatenation of
  `/token` segments (empty string for the record root), which is how the
  engine composes addresses (`currentPointer.toString() + '/' + name`).
-/

/-- A JavaScript runtime value, as traversed by the engine.  `vUndefined`
and `vNull` are the two null-like forms; `vObj` keeps the insertion order
of keys, mirroring `Object.keys` enumeration order. -/
inductive JSValue : Type where
  | vUndefined : JSValue
  | vNull : JSValue
  | vBool : Bool → JSValue
  | vNum : Int → JSValue
  | vStr : String → JSValue
  | vArr : List JSValue → JSValue
  | vObj : List (String × JSValue) → JSValue
  deriving Repr

mutual

/-- Structural equality of JavaScript values; stands in for the value-level
content of the source's strict (in)equality checks. -/
def JSValue.beq : JSValue → JSValue → Bool
  | .vUndefined, .vUndefined => true
  | .vNull, .vNull => true
  | .vBool a, .vBool b => a == b
  | .vNum a, .vNum b => a == b
  | .vStr a, .vStr b => a == b
  | .vArr a, .vArr b => beqElems a b
  | .vObj a, .vObj b => beqFields a b
  | _, _ => false
termination_by v _ => (sizeOf v, 0)

/-- Elementwise `JSValue.beq` on arrays. -/
def beqElems : List JSValue → List JSValue → Bool
  | [], [] => true
  | x :: xs, y :: ys => JSValue.beq x y && beqElems xs ys
  | _, _ => false
termination_by l _ => (sizeOf l, 1)

/-- Fieldwise `JSValue.beq` on objects. -/
def beqFields : List (String × JSValue) → List (String × JSValue) → Bool
  | [], [] => true
  | (k1, v1) :: xs, (k2, v2) :: ys =>
    k1 == k2 && JSValue.beq v1 v2 && beqFields xs ys
  | _, _ => false
termination_by l _ => (sizeOf l, 1)

end

mutual

/-- `JSValue.beq` is reflexive. -/
def beqRefl : (v : JSValue) → JSValue.beq v v = true
  | .vUndefined => by simp [JSValue.beq]
  | .vNull => by simp [JSValue.beq]
  | .vBool a => by simp [JSValue.beq]
  | .vNum a => by simp [JSValue.beq]
  | .vStr a => by simp [JSValue.beq]
  | .vArr a => by simp [JSValue.beq, beqElemsRefl a]
  | .vObj a => by simp [JSValue.beq, beqFieldsRefl a]
termination_by v => (sizeOf v, 0)

/-- `beqElems` is reflexive. -/
def beqElemsRefl : (l : List JSValue) → beqElems l l = true
  | [] => by simp [beqElems]
  | x :: xs => by simp [beqElems, beqRefl x, beqElemsRefl xs]
termination_by l => (sizeOf l, 1)

/-- `beqFields` is reflexive. -/
def beqFieldsRefl : (l : List (String × JSValue)) → beqFields l l = true
  | [] => by simp [beqFields]
  | (k, v) :: xs => by simp [beqFields, beqRefl v, beqFieldsRefl xs]
termination_by l => (sizeOf l, 1)

end

/-- `typeof value === 'object' && value !== null`: the source's test for a
structured value it may descend into (arrays are `typeof 'object'` too). -/
def typeofObjectNotNull : JSValue → Bool
  | .vObj _ => true
  | .vArr _ => true
  | _ => false

/-- `value === undefined || value === null`. -/
def isNullish : JSValue → Bool
  | .vUndefined => true
  | .vNull => true
  | _ => false

/-- Property read `obj[key]`: first entry with the key, `undefined` when the
key is absent or the value is not an object. -/
def objGet (v : JSValue) (k : String) : JSValue :=
  match v with
  | .vObj fields =>
    match fields.find? (fun f => f.1 == k) with
    | some f => f.2
    | none => .vUndefined
  | _ => .vUndefined

/-- Update the first entry with the key, or append a new entry, matching
JavaScript property assignment on plain objects (insertion order kept). -/
def setField : List (String × JSValue) → String → JSValue → List (String × JSValue)
  | [], k, nv => [(k, nv)]
  | f :: rest, k, nv =>
    if f.1 == k then (f.1, nv) :: rest else f :: setField rest k nv

/-- Property assignment `obj[key] = value` on an object value; assignments
to non-object containers fall outside the model and leave the value as is. -/
def objSet (v : JSValue) (k : String) (nv : JSValue) : JSValue :=
  match v with
  | .vObj fields => .vObj (setField fields k nv)
  | other => other

/-!  ## Error sink — `lib/validation-errors.js` (`ValidationErrors`)

The `ValidationErrors` object maps RFC 6901 pointer strings to non-empty
arrays of messages, keys in first-report order. -/

/-- The error sink: an insertion-ordered map from address string to the list
of messages reported for that address. -/
abbrev ErrSink := List (String × List String)

/-- `ValidationErrors.prototype.addError`: append the message to the list
for the key, creating the list if absent. -/
def addErr (es : ErrSink) (key msg : String) : ErrSink :=
  if es.any (fun e => e.1 == key) then
    es.map (fun e => if e.1 == key then (e.1, e.2 ++ [msg]) else e)
  else es ++ [(key, [msg])]

/-- `ValidationErrors.prototype.hasErrors`: the key's list exists and is
non-empty. -/
def errHas (es : ErrSink) (key : String) : Bool :=
  match es.find? (fun e => e.1 == key) with
  | some e => !e.2.isEmpty
  | none => false

/-- `ValidationErrors.prototype.isEmpty`: no keys at all. -/
def errEmpty (es : ErrSink) : Bool := es.isEmpty

/-- Append a batch of reported `(address, message)` pairs in order. -/
def appendErrs (es : ErrSink) (errs : List (String × String)) : ErrSink :=
  errs.foldl (fun acc e => addErr acc e.1 e.2) es

/-!  ## Pointers — external `x2node-pointers` collaborator interface

Only the string form and child composition are consumed by the engine. -/

/-- A record element pointer as its list of tokens (root = `[]`). -/
abbrev Ptr := List String

/-- `RecordElementPointer.toString()`: `/token` segments concatenated;
empty string for the record root. -/
def ptrToString (p : Ptr) : String :=
  p.foldl (fun acc seg => acc ++ "/" ++ seg) ""

/-!  ## Structural string helpers

Several `String` library operations (`trim`, `startsWith`, `split`,
`toLowerCase`) are modelled by structurally recursive char-list versions
with identical behavior, so that theorems about concrete inputs evaluate. -/

/-- `String.prototype.trim` / the `/^\s+|\s+$/g` replacement: drop leading
and trailing whitespace. -/
def jsTrim (s : String) : String :=
  String.mk (((s.data.dropWhile Char.isWhitespace).reverse.dropWhile
    Char.isWhitespace).reverse)

/-- Split a character list at every occurrence of the separator character
(the segments between separators, in order), as
`String.prototype.split(sep)` does for a one-character separator. -/
def splitChar (sep : Char) : List Char → List (List Char)
  | [] => [[]]
  | c :: rest =>
    if c = sep then [] :: splitChar sep rest
    else
      match splitChar sep rest with
      | s :: ss => (c :: s) :: ss
      | [] => [[c]]

/-- `String.prototype.startsWith` / `String.startsWith`. -/
def strStartsWith (s pre : String) : Bool :=
  pre.data.isPrefixOf s.data

/-- `String.prototype.toLowerCase` on the basic-latin alphabet. -/
def toLowerStr (s : String) : String :=
  String.mk (s.data.map Char.toLower)

/-!  ## Validator functions

A curried validator `(ctx, value) -> value` interacts with the context only
by reading the sink / current pointer / containers chain and by appending
errors, so it is modelled as a pure function returning the reported
`(address string, message)` pairs next to the resulting value. -/

/-- A curried validator function, as resolved into a rule chain. -/
abbrev Validator :=
  ErrSink → Ptr → List JSValue → JSValue → List (String × String) × JSValue

/-!  ## Descriptors — read-only `x2node-records` collaborator interface

The engine reads: property enumeration in declaration order, the per-property
flags (`isView`, `isSubtype`, `isArray`, `isMap`), `scalarValueType`, the
nested container, the polymorphic-container discriminator, and the declared
`validators` sets (a set-name-keyed mapping to validator lists, iterated in
declaration order as `for..in` does for string keys). -/

mutual

/-- A property descriptor, with the fields the engine reads. -/
inductive PropDesc : Type where
  | mk : (name : String) → (viewFlag : Bool) → (subtypeFlag : Bool) →
      (arrayFlag : Bool) → (mapFlag : Bool) → (scalarValueType : String) →
      (nested : Option Container) →
      (validators : Option (List (String × List Validator))) → PropDesc

/-- A properties container (record type descriptor or nested container):
polymorphic flag, discriminator property name, properties in declaration
order, and the container's own declared validator sets. -/
inductive Container : Type where
  | mk : (polymorph : Bool) → (typePropertyName : String) →
      (props : List PropDesc) →
      (validators : Option (List (String × List Validator))) → Container

end

/-- Property name accessor. -/
def PropDesc.name : PropDesc → String
  | .mk n _ _ _ _ _ _ _ => n

/-- `isView()` accessor. -/
def PropDesc.viewFlag : PropDesc → Bool
  | .mk _ b _ _ _ _ _ _ => b

/-- `isSubtype()` accessor. -/
def PropDesc.subtypeFlag : PropDesc → Bool
  | .mk _ _ b _ _ _ _ _ => b

/-- `isArray()` accessor. -/
def PropDesc.arrayFlag : PropDesc → Bool
  | .mk _ _ _ b _ _ _ _ => b

/-- `isMap()` accessor. -/
def PropDesc.mapFlag : PropDesc → Bool
  | .mk _ _ _ _ b _ _ _ => b

/-- `scalarValueType` accessor. -/
def PropDesc.scalarValueType : PropDesc → String
  | .mk _ _ _ _ _ s _ _ => s

/-- `nestedProperties` accessor. -/
def PropDesc.nested : PropDesc → Option Container
  | .mk _ _ _ _ _ _ c _ => c

/-- Declared validator sets of a property. -/
def PropDesc.validators : PropDesc → Option (List (String × List Validator))
  | .mk _ _ _ _ _ _ _ v => v

/-- `isPolymorphObject()` accessor. -/
def Container.polymorph : Container → Bool
  | .mk b _ _ _ => b

/-- `typePropertyName` accessor. -/
def Container.typePropertyName : Container → String
  | .mk _ t _ _ => t

/-- `allPropertyNames`-order property list accessor. -/
def Container.props : Container → List PropDesc
  | .mk _ _ ps _ => ps

/-- Declared validator sets of a container / record type descriptor. -/
def Container.validators : Container → Option (List (String × List Validator))
  | .mk _ _ _ v => v

/-- `hasProperty(name)`. -/
def Container.hasProp (c : Container) (n : String) : Bool :=
  c.props.any (fun p => p.name == n)

/-!  ## Rule-chain resolution — `record-normalizer.js` `getValidators` -/

/-- The `for (let set in validators)` accumulation loop of `getValidators`
(lines 230–237): iterate the declared sets in declaration order; for element
chains keep only `element:`-prefixed sets and test activation on the
stripped name, otherwise test the full set name; concatenate the matching
rule lists onto the accumulator. -/
def gvLoop (element : Bool) (validationSets : List String) :
    List (String × List Validator) → List Validator → List Validator
  | [], acc => acc
  | sv :: rest, acc =>
    if element && !(strStartsWith sv.1 "element:") then
      gvLoop element validationSets rest acc
    else if validationSets.contains
        (if element then sv.1.drop ("element:".length) else sv.1) then
      gvLoop element validationSets rest (acc ++ sv.2)
    else gvLoop element validationSets rest acc

/-- `getValidators(subjDesc, element, validationSets)` from
`src/lib/record-normalizer.js` (lines 223–240): run the declared-set loop;
`null` when the descriptor declares no validators or nothing matched. -/
def getValidators (validators : Option (List (String × List Validator)))
    (element : Bool) (validationSets : List String) : Option (List Validator) :=
  match validators with
  | none => none
  | some vsets =>
    let allV := gvLoop element validationSets vsets []
    if allV.isEmpty then none else some allV

/-- The active validation set collection built by `normalize` (lines 38–40):
`new Set((validationSets ? validationSets.trim() + ',*' : '*')
.split(/\s*,\s*/))`, modelled as splitting on commas and trimming each name
(only membership is consumed, so a list stands in for the `Set`). -/
def parseSets (validationSets : Option String) : List String :=
  match validationSets with
  | some s =>
    if s == "" then ["*"]
    else (splitChar ',' (jsTrim s ++ ",*").data).map (fun cs => jsTrim (String.mk cs))
  | none => ["*"]

/-- Run a rule chain: each validator sees the sink as of its invocation and
threads the (possibly normalized) value into the next. -/
def runChain (vs : List Validator) (es : ErrSink) (ptr : Ptr)
    (chain : List JSValue) (v : JSValue) : ErrSink × JSValue :=
  vs.foldl (fun st vl =>
    let r := vl st.1 ptr chain st.2
    (appendErrs st.1 r.1, r.2)) (es, v)

/-- Run an optional rule chain; a `null` chain is skipped. -/
def runChainOpt (o : Option (List Validator)) (es : ErrSink) (ptr : Ptr)
    (chain : List JSValue) (v : JSValue) : ErrSink × JSValue :=
  match o with
  | none => (es, v)
  | some vs => runChain vs es ptr chain v

/-- Run a chain whose returned values the source discards (record-level and
subtype-level validator loops): every validator receives the same value and
only the reported errors are kept. -/
def runChainDiscard (vs : List Validator) (es : ErrSink) (ptr : Ptr)
    (chain : List JSValue) (v : JSValue) : ErrSink :=
  vs.foldl (fun acc vl => appendErrs acc (vl acc ptr chain v).1) es

/-!  ## Traversal engine — `record-normalizer.js` `normalizeChildren`

The recursive descent of lines 72–210, purified: the error sink and the
container object are threaded explicitly; `ctx.descend(tok, containerObj)` /
`ctx.ascend()` become passing the extended pointer and containers chain into
the child processing.  The source's reference-guarded write-backs
(`if (value !== originalValue) containerObj[propName] = value`) are modelled
with the structural guard `beq`; for object-valued collection elements the
no-assignment path keeps the child-normalized value, since in the source the
slot already holds that same (in-place mutated) reference. -/

/-- Scalar array element loop (lines 143–152): per element, descend with the
decimal index as the pointer token, run the element chain, write back on
change.  `done` holds the already-processed prefix, `idx` the absolute index
of the head of `todo`. -/
def normScalarElems (vs : List Validator) (es : ErrSink) (ptr2 : Ptr)
    (chain2 : List JSValue) (done todo : List JSValue) (idx : Nat) :
    ErrSink × List JSValue :=
  match todo with
  | [] => (es, done)
  | e0 :: rest =>
    let chain3 := chain2 ++ [JSValue.vArr (done ++ e0 :: rest)]
    let ptr3 := ptr2 ++ [toString idx]
    let r := runChain vs es ptr3 chain3 e0
    let enew := if JSValue.beq r.2 e0 then e0 else r.2
    normScalarElems vs r.1 ptr2 chain2 (done ++ [enew]) rest (idx + 1)

/-- Scalar map entry loop (lines 179–188): per materialized key, descend with
the key as the pointer token, run the element chain, write back on change. -/
def normScalarEntries (vs : List Validator) (es : ErrSink) (ptr2 : Ptr)
    (chain2 : List JSValue) (fields : List (String × JSValue))
    (keys : List String) : ErrSink × List (String × JSValue) :=
  match keys with
  | [] => (es, fields)
  | k :: restKeys =>
    let e0 := objGet (.vObj fields) k
    let chain3 := chain2 ++ [JSValue.vObj fields]
    let ptr3 := ptr2 ++ [k]
    let r := runChain vs es ptr3 chain3 e0
    let fields1 := if JSValue.beq r.2 e0 then fields else setField fields k r.2
    normScalarEntries vs r.1 ptr2 chain2 fields1 restKeys

mutual

/-- `normalizeChildren` (lines 72–210): validate the discriminator of a
polymorphic container (reporting `{invalidType}` at the discriminator's
address and descending no further on mismatch), then process the declared
properties in order. -/
def normalizeChildren (c : Container) (subtypeName : Option String)
    (es : ErrSink) (ptr : Ptr) (chain : List JSValue) (obj : JSValue)
    (sets : List String) : ErrSink × JSValue :=
  match c with
  | .mk poly typeProp props _ =>
    if poly then
      match objGet obj typeProp with
      | .vStr st =>
        if props.any (fun p => p.name == st) then
          normProps props (some st) subtypeName es ptr chain obj sets
        else
          (addErr es (ptrToString ptr ++ "/" ++ typeProp) "{invalidType}", obj)
      | _ =>
        (addErr es (ptrToString ptr ++ "/" ++ typeProp) "{invalidType}", obj)
    else
      normProps props none subtypeName es ptr chain obj sets
termination_by (sizeOf c, 0, 0)

/-- The `for (let propName of container.allPropertyNames)` loop: process the
properties in declaration order, threading sink and container object. -/
def normProps (props : List PropDesc) (selSubtype subtypeName : Option String)
    (es : ErrSink) (ptr : Ptr) (chain : List JSValue) (obj : JSValue)
    (sets : List String) : ErrSink × JSValue :=
  match props with
  | [] => (es, obj)
  | p :: rest =>
    let r := normProp p selSubtype subtypeName es ptr chain obj sets
    normProps rest selSubtype subtypeName r.1 ptr chain r.2 sets
termination_by (sizeOf props, 3, 0)

/-- One iteration of the property loop (lines 89–208): skip views; for a
subtype property matching the selected variant, recurse into the variant's
container against the same object and then run the variant's own chain with
discarded results; otherwise descend into the property (tokens of variant
fields are composed as `variant:name`), process nested elements, run the
whole-value chain, and write the result back on change. -/
def normProp (p : PropDesc) (selSubtype subtypeName : Option String)
    (es : ErrSink) (ptr : Ptr) (chain : List JSValue) (obj : JSValue)
    (sets : List String) : ErrSink × JSValue :=
  match p with
  | .mk pname pview psub parr pmap psvt pnested pvals =>
    if pview then (es, obj)
    else if psub then
      if selSubtype == some pname then
        let r1 :=
          match pnested with
          | some c => normalizeChildren c selSubtype es ptr chain obj sets
          | none => (es, obj)
        let es2 :=
          match getValidators pvals false sets with
          | some vs => runChainDiscard vs r1.1 ptr chain r1.2
          | none => r1.1
        (es2, r1.2)
      else (es, obj)
    else
      let originalValue := objGet obj pname
      let seg :=
        match subtypeName with
        | some sn => sn ++ ":" ++ pname
        | none => pname
      let ptr2 := ptr ++ [seg]
      let chain2 := chain ++ [obj]
      let r2 :=
        if parr then
          match originalValue with
          | .vArr elems =>
            if elems.length > 0 then
              let evs := getValidators pvals true sets
              if psvt == "object" then
                let r := normObjElems pnested evs es ptr2 chain2 [] elems 0 sets
                (r.1, JSValue.vArr r.2)
              else
                match evs with
                | some vs =>
                  let r := normScalarElems vs es ptr2 chain2 [] elems 0
                  (r.1, JSValue.vArr r.2)
                | none => (es, originalValue)
            else (es, originalValue)
          | _ => (es, originalValue)
        else if pmap then
          match originalValue with
          | .vObj fields =>
            let evs := getValidators pvals true sets
            if psvt == "object" then
              let r := normObjEntries pnested evs es ptr2 chain2 fields
                (fields.map Prod.fst) sets
              (r.1, JSValue.vObj r.2)
            else
              match evs with
              | some vs =>
                let r := normScalarEntries vs es ptr2 chain2 fields
                  (fields.map Prod.fst)
                (r.1, JSValue.vObj r.2)
              | none => (es, originalValue)
          | _ => (es, originalValue)
        else if psvt == "object" && typeofObjectNotNull originalValue then
          match pnested with
          | some c => normalizeChildren c none es ptr2 chain2 originalValue sets
          | none => (es, originalValue)
        else (es, originalValue)
      let r3 := runChainOpt (getValidators pvals false sets) r2.1 ptr2 chain2 r2.2
      let obj2 := if JSValue.beq r3.2 originalValue then obj
        else objSet obj pname r3.2
      (r3.1, obj2)
termination_by (sizeOf p, 3, 0)

/-- Object array element loop (lines 125–141): per element, descend with the
decimal index, recurse into the element's children first, then run the
element chain and write back on change (the no-assignment path keeps the
child-normalized value, which the slot's reference already holds). -/
def normObjElems (nestedOpt : Option Container) (evs : Option (List Validator))
    (es : ErrSink) (ptr2 : Ptr) (chain2 : List JSValue)
    (done todo : List JSValue) (idx : Nat) (sets : List String) :
    ErrSink × List JSValue :=
  match todo with
  | [] => (es, done)
  | e0 :: rest =>
    let chain3 := chain2 ++ [JSValue.vArr (done ++ e0 :: rest)]
    let ptr3 := ptr2 ++ [toString idx]
    let r1 :=
      if typeofObjectNotNull e0 then
        match nestedOpt with
        | some c => normalizeChildren c none es ptr3 chain3 e0 sets
        | none => (es, e0)
      else (es, e0)
    match evs with
    | some vs =>
      let r2 := runChain vs r1.1 ptr3 chain3 r1.2
      let enew := if JSValue.beq r2.2 e0 then r1.2 else r2.2
      normObjElems nestedOpt evs r2.1 ptr2 chain2 (done ++ [enew]) rest
        (idx + 1) sets
    | none =>
      normObjElems nestedOpt evs r1.1 ptr2 chain2 (done ++ [r1.2]) rest
        (idx + 1) sets
termination_by (sizeOf nestedOpt, 2, todo.length)

/-- Object map entry loop (lines 161–177): per materialized key, descend with
the key, recurse into the entry's children first, then run the element chain
and write back on change. -/
def normObjEntries (nestedOpt : Option Container)
    (evs : Option (List Validator)) (es : ErrSink) (ptr2 : Ptr)
    (chain2 : List JSValue) (fields : List (String × JSValue))
    (keys : List String) (sets : List String) :
    ErrSink × List (String × JSValue) :=
  match keys with
  | [] => (es, fields)
  | k :: restKeys =>
    let e0 := objGet (.vObj fields) k
    let chain3 := chain2 ++ [JSValue.vObj fields]
    let ptr3 := ptr2 ++ [k]
    let r1 :=
      if typeofObjectNotNull e0 then
        match nestedOpt with
        | some c => normalizeChildren c none es ptr3 chain3 e0 sets
        | none => (es, e0)
      else (es, e0)
    match evs with
    | some vs =>
      let r2 := runChain vs r1.1 ptr3 chain3 r1.2
      let fields1 := if JSValue.beq r2.2 e0 then setField fields k r1.2
        else setField fields k r2.2
      normObjEntries nestedOpt evs r2.1 ptr2 chain2 fields1 restKeys sets
    | none =>
      normObjEntries nestedOpt evs r1.1 ptr2 chain2 (setField fields k r1.2)
        restKeys sets
termination_by (sizeOf nestedOpt, 2, keys.length)

end

/-!  ## Top-level call — `record-normalizer.js` `normalize` (lines 29–57) -/

/-- The usage faults `normalize` can raise before any traversal. -/
inductive UsageFault : Type where
  | recordNotProvided : UsageFault
  | unknownRecordType : UsageFault
  deriving Repr, DecidableEq

/-- The sink produced by one full validation run over a resolved record
type descriptor: the recursive property traversal of lines 46–47 followed by
the record-type-level chain of lines 49–53 (whose returned values the source
discards). -/
def fullRunSink (rtd : Container) (record : JSValue)
    (validationSets : Option String) : ErrSink :=
  let sets := parseSets validationSets
  let r := normalizeChildren rtd none [] [] [] record sets
  match getValidators rtd.validators false sets with
  | some vs => runChainDiscard vs r.1 [] [] r.2
  | none => r.1

/-- `normalize(recordTypes, recordTypeName, record, lang, validationSets)`:
reject a null / non-object record, resolve the record type, build the active
set collection, recursively process the record's properties, run the
record-type-level chain (results discarded) against the whole record, and
return `null` when the sink is empty, the sink otherwise.  The `lang`
argument only parameterizes message rendering, which is modelled separately
(the sink stores raw message references).  The source exports this function
as `normalizeRecord`. -/
def normalizeRecord (recordTypes : List (String × Container))
    (recordTypeName : String) (record : JSValue)
    (validationSets : Option String) : Except UsageFault (Option ErrSink) :=
  if !(typeofObjectNotNull record) then .error .recordNotProvided
  else
    match recordTypes.find? (fun rt => rt.1 == recordTypeName) with
    | none => .error .unknownRecordType
    | some rt =>
      let es2 := fullRunSink rt.2 record validationSets
      .ok (if errEmpty es2 then none else some es2)

/-!  ## Message resolver — `src/lib/message-resolver.js`

The constructor (lines 19–40) parses an HTTP `Accept-Language` style
preference string into the resolver's internal language list, and
`_findMessageTemplate` (lines 92–102) scans that list against a
language-keyed template object.  `Number(...)` is modelled over plain
(optionally signed) decimal literals, which is the grammar of `q` weights;
any other string is NaN (`none`), and the empty / all-blank string is `0`,
as in JavaScript. -/

/-- An exactly represented decimal number `mant / 10 ^ scale`, the result of
parsing a decimal literal (the grammar of `q` weights); comparisons are the
exact rational ones. -/
structure DecNum where
  mant : Int
  scale : Nat
  deriving Repr

/-- Exact `≤` on parsed decimals. -/
def DecNum.le (x y : DecNum) : Bool :=
  decide (x.mant * (10 : Int) ^ y.scale ≤ y.mant * (10 : Int) ^ x.scale)

/-- Exact `0 <` on parsed decimals. -/
def DecNum.pos (x : DecNum) : Bool :=
  decide (0 < x.mant)

/-- Parse a list of decimal digits into a number; `none` on a non-digit or
on the empty list. -/
def parseDigits (cs : List Char) : Option Nat :=
  if cs.isEmpty then none
  else cs.foldl (fun acc c =>
    match acc with
    | none => none
    | some n => if c.isDigit then some (n * 10 + (c.toNat - 48)) else none)
    (some 0)

/-- `Number(str)` on optionally signed decimal literals (`none` = NaN);
the empty / all-blank string is `0`, as in JavaScript.  Exponent and
non-decimal forms are outside the model of `q` weights. -/
def jsNumber (str : String) : Option DecNum :=
  let t := jsTrim str
  if t == "" then some ⟨0, 0⟩
  else
    let neg := strStartsWith t "-"
    let body := if strStartsWith t "-" || strStartsWith t "+" then t.drop 1 else t
    match splitChar '.' body.data with
    | [ip] =>
      match parseDigits ip with
      | some n => some ⟨if neg then -(n : Int) else (n : Int), 0⟩
      | none => none
    | [ip, fp] =>
      if ip.isEmpty && fp.isEmpty then none
      else
        let ipn := if ip.isEmpty then some 0 else parseDigits ip
        let fpn := if fp.isEmpty then some 0 else parseDigits fp
        match ipn, fpn with
        | some a, some b =>
          let mant : Int := (a : Int) * (10 : Int) ^ fp.length + (b : Int)
          some ⟨if neg then -mant else mant, fp.length⟩
        | _, _ => none
    | _ => none

/-- Split a preference item at its first `;q=`, as the lazy regex
`^(.*?)(?:;q=(.*))?$` does: tag before, weight string (if any) after. -/
def splitQAux : List Char → Option (List Char × List Char)
  | [] => none
  | ';' :: 'q' :: '=' :: rest => some ([], rest)
  | c :: rest =>
    match splitQAux rest with
    | some r => some (c :: r.1, r.2)
    | none => none

/-- Split a preference item at its first `;q=`: the tag, and the weight
string when a `;q=` is present. -/
def splitQ (s : String) : String × Option String :=
  match splitQAux s.data with
  | some r => (String.mk r.1, some (String.mk r.2))
  | none => (s, none)

/-- Stable ascending insertion by weight: an element goes after every
already-placed element of less-or-equal weight, which is exactly a stable
sort with the source's `(l1, l2) => l1.qvalue < l2.qvalue ? -1 : ...`
comparator. -/
def insertByQ (x : String × DecNum) :
    List (String × DecNum) → List (String × DecNum)
  | [] => [x]
  | y :: ys => if DecNum.le y.2 x.2 then y :: insertByQ x ys else x :: y :: ys

/-- Stable ascending sort by weight (`Array.prototype.sort` is stable). -/
def sortByQAsc (l : List (String × DecNum)) : List (String × DecNum) :=
  l.foldl (fun acc x => insertByQ x acc) []

/-- The `MessageResolver` constructor's `_langs` computation (lines 21–39):
trim, split on commas, parse each item into `(tag, weight)` with default
weight 1, drop wildcard tags and non-positive (or NaN) weights, stable-sort
ascending by weight, lowercase the tags. -/
def mkLangs (lang : String) : List String :=
  let items := (splitChar ',' (jsTrim lang).data).map
    (fun cs => jsTrim (String.mk cs))
  let parsed := items.map (fun l =>
    let q := splitQ l
    (q.1, match q.2 with
          | none => some (⟨1, 0⟩ : DecNum)
          | some qs => jsNumber qs))
  let filtered := parsed.filterMap (fun e =>
    match e.2 with
    | some q => if e.1 != "*" && DecNum.pos q then some (e.1, q) else none
    | none => none)
  (sortByQAsc filtered).map (fun e => toLowerStr e.1)

/-- Truthy lookup `messageTmpls[lang]` followed by `if (messageTmpl)`: a
present but empty-string template is skipped like a missing one. -/
def lookupTruthy (tmpls : List (String × String)) (lg : String) :
    Option String :=
  match tmpls.find? (fun t => t.1 == lg) with
  | some t => if t.2 == "" then none else some t.2
  | none => none

/-- `MessageResolver.prototype._findMessageTemplate` (lines 92–102): scan
the resolver's language list from the front; fall back to the first declared
entry of the template object. -/
def findMessageTmpl (langs : List String) (tmpls : List (String × String)) :
    Option String :=
  match langs with
  | [] => tmpls.head?.map (fun t => t.2)
  | lg :: rest =>
    match lookupTruthy tmpls lg with
    | some t => some t
    | none => findMessageTmpl rest tmpls

/-- `renderMessage` (lines 73–80) without parameters: a string template is
returned as is, a language-keyed object goes through
`_findMessageTemplate`. -/
def renderMessageTmpl (tmpls : Sum String (List (String × String)))
    (langs : List String) : Option String :=
  match tmpls with
  | .inl s => some s
  | .inr byLang => findMessageTmpl langs byLang

/-!  ## Standard validators — `lib/standard.js`

The private `isEmpty(ptr, propDesc, value)` helper (lines 879–899) and the
`rangeDef` validator (lines 1503–1550), embedded standalone: they consume
only the pieces of the context captured in the small view structures
below. -/

/-- The property-descriptor fields `isEmpty` reads. -/
structure PDLite where
  arrayFlag : Bool
  mapFlag : Bool
  scalarFlag : Bool
  scalarValueType : String

/-- `Object.keys(value).length` (array indices count as keys). -/
def objKeyCount : JSValue → Nat
  | .vObj fields => fields.length
  | .vArr elems => elems.length
  | _ => 0

/-- `isEmpty(ptr, propDesc, value)` from `lib/standard.js` lines 879–899:
null-like values are empty; a zero-length array on a whole (non-element)
array property is empty; a zero-key object on a whole map property is
empty; a zero-length string on a string scalar or string collection element
is empty; everything else is not. `collectionElement` is the pointer's
`collectionElement` flag. -/
def isEmptyVal (collectionElement : Bool) (pd : PDLite) (value : JSValue) :
    Bool :=
  match value with
  | .vUndefined => true
  | .vNull => true
  | v =>
    if pd.arrayFlag && !collectionElement &&
        (match v with | .vArr _ => true | _ => false) then
      (match v with | .vArr elems => elems.length == 0 | _ => false)
    else if pd.mapFlag && !collectionElement && typeofObjectNotNull v then
      objKeyCount v == 0
    else if (pd.scalarFlag || collectionElement) &&
        pd.scalarValueType == "string" &&
        (match v with | .vStr _ => true | _ => false) then
      (match v with | .vStr s => s.length == 0 | _ => false)
    else false

/-- The `required` validator (lib/standard.js lines 1000–1006): report
`{missing}` at the current pointer exactly when the value is empty; the
value is returned unchanged.  Returns the reported messages. -/
def requiredRule (collectionElement : Bool) (pd : PDLite) (value : JSValue) :
    List String × JSValue :=
  if isEmptyVal collectionElement pd value then (["{missing}"], value)
  else ([], value)

/-- Lexicographic code-unit comparison of character lists, as JavaScript
compares strings. -/
def charListLT : List Char → List Char → Bool
  | [], [] => false
  | [], _ :: _ => true
  | _ :: _, [] => false
  | a :: as, b :: bs =>
    if a.val.toNat < b.val.toNat then true
    else if b.val.toNat < a.val.toNat then false
    else charListLT as bs

/-- JavaScript `>` restricted to same-type numeric or string operands (the
domain the range validator documents); mixed-type coercion comparisons are
outside the model and compare as false. -/
def jsGT : JSValue → JSValue → Bool
  | .vNum a, .vNum b => decide (b < a)
  | .vStr a, .vStr b => charListLT b.data a.data
  | _, _ => false

/-- JavaScript `>=` on the same restricted domain. -/
def jsGE : JSValue → JSValue → Bool
  | .vNum a, .vNum b => decide (b ≤ a)
  | .vStr a, .vStr b => !(charListLT a.data b.data)
  | _, _ => false

/-- String interpolation of a value inside a template literal. -/
def jsTemplateStr : JSValue → String
  | .vStr s => s
  | .vUndefined => "undefined"
  | .vNull => "null"
  | .vNum n => toString n
  | .vBool b => toString b
  | .vArr _ => ""
  | .vObj _ => "[object Object]"

/-- `/\bnonZero\b/.test(s)`: the word `nonZero` occurs as a maximal run of
word characters. -/
def hasWordNonZero (s : String) : Bool :=
  (s.split (fun c => !(c.isAlphanum || c == '_'))).contains "nonZero"

/-- `charAt(0).toUpperCase() + substring(1)`. -/
def capFirst (s : String) : String :=
  match s.data with
  | [] => ""
  | c :: cs => String.mk (c.toUpper :: cs)

/-- The context view `rangeDef` reads: the current pointer's string, whether
the current container descriptor is a polymorphic object (and its
discriminator property name), the sink so far, and the element-title
resolution (`ctx.getElementTitle`) as a pointer-string-indexed oracle. -/
structure RangeCtx where
  curPtrStr : String
  polymorphContainer : Bool
  typePropertyName : String
  errs : ErrSink
  title : String → String

/-- The `rangeDef` validator (lib/standard.js lines 1503–1550): skip for
null-like or non-object values; resolve the two sibling pointers (with the
`subtype:` qualification inside a polymorphic container, skipping when the
discriminator already has errors); skip when either sibling address already
has errors or either sibling value is null-like; otherwise compare and, when
out of order, report a single `{invalidRangeDef}` at the high sibling's
address with the low sibling's title as `rangeLoName`.  Errors are returned
as `(address, message id, parameters)` triples. -/
def rangeDef (propLo propHi flags : String) (ctx : RangeCtx)
    (value : JSValue) :
    List (String × String × List (String × String)) × JSValue :=
  if isNullish value || !(typeofObjectNotNull value) then ([], value)
  else
    let curPtr := ctx.curPtrStr
    let ptrPair : Option (String × String) :=
      if ctx.polymorphContainer then
        if errHas ctx.errs (curPtr ++ "/" ++ ctx.typePropertyName) then none
        else
          let subtype := jsTemplateStr (objGet value ctx.typePropertyName)
          some (curPtr ++ "/" ++ subtype ++ ":" ++ propLo,
            curPtr ++ "/" ++ subtype ++ ":" ++ propHi)
      else
        some (curPtr ++ "/" ++ propLo, curPtr ++ "/" ++ propHi)
    match ptrPair with
    | none => ([], value)
    | some pp =>
      let propLoPtr := pp.1
      let propHiPtr := pp.2
      if errHas ctx.errs propLoPtr || errHas ctx.errs propHiPtr then
        ([], value)
      else
        let propLoVal := objGet value propLo
        let propHiVal := objGet value propHi
        if isNullish propLoVal || isNullish propHiVal then ([], value)
        else
          let nonZero := hasWordNonZero flags
          if (nonZero && jsGE propLoVal propHiVal) ||
              (!nonZero && jsGT propLoVal propHiVal) then
            let t := ctx.title propLoPtr
            ([(propHiPtr, "{invalidRangeDef}",
              [("rangeLoName", t), ("rangeLoNameCaps", capFirst t)])], value)
          else ([], value)

/-!  ## Claim-support definitions -/

/-- A probe validator that reports a fixed message at the current pointer
and returns the value unchanged (the shape of a plain checking rule such as
`required`). -/
def reportAtCurrent (msg : String) : Validator :=
  fun _ ptr _ v => ([(ptrToString ptr, msg)], v)

/-- A probe validator that reports, at the current pointer, one of two
messages according to whether the sink already has errors at a fixed
address — the shape of a cross-field rule using `ctx.hasErrorsFor`. -/
def observeHasErr (key yes no : String) : Validator :=
  fun es ptr _ v => ([(ptrToString ptr, if errHas es key then yes else no)], v)

/-- A record-level observer: reports whatever the given function derives
from the sink and the record value, returning the value unchanged. -/
def obsWrap (f : ErrSink → JSValue → List (String × String)) : Validator :=
  fun es _ _ v => (f es v, v)

/-- The expected report list of `reportAtCurrent msg` run once per element
of a collection starting at index `idx`: one `(pstr ++ "/" ++ index, msg)`
pair per element, in element order. -/
def reportKeys (msg pstr : String) (idx : Nat) : List JSValue → List (String × String)
  | [] => []
  | _ :: rest => (pstr ++ "/" ++ toString idx, msg) :: reportKeys msg pstr (idx + 1) rest

/-- The spec's whole-value chain: concatenation, in set-declaration
iteration order, of the rule lists of the sets whose name is in the active
collection. -/
def specWholeChain : List (String × List Validator) → List String → List Validator
  | [], _ => []
  | sv :: rest, sets =>
    (if sets.contains sv.1 then sv.2 else []) ++ specWholeChain rest sets

/-- The spec's collection-element chain: concatenation, in set-declaration
iteration order, of the rule lists of the `element:`-prefixed sets whose
name stripped of the prefix is in the active collection. -/
def specElementChain : List (String × List Validator) → List String → List Validator
  | [], _ => []
  | sv :: rest, sets =>
    (if strStartsWith sv.1 "element:" &&
        sets.contains (sv.1.drop ("element:".length)) then sv.2 else []) ++
      specElementChain rest sets

/-- The discriminator test of `normalizeChildren` lines 78–79, negated: the
discriminator value is not a string or is not a declared variant name. -/
def badDiscriminator (d : JSValue) (props : List PropDesc) : Bool :=
  match d with
  | .vStr s => !(props.any (fun p => p.name == s))
  | _ => true

/-- A validator function that returns its value argument unchanged for
every input (it may still report errors). -/
def Preserving (vl : Validator) : Prop :=
  ∀ es ptr chain v, (vl es ptr chain v).2 = v

/-- Every rule in every declared set of the mapping is value-preserving. -/
def chainsPreserving : Option (List (String × List Validator)) → Prop
  | none => True
  | some l => ∀ sv ∈ l, ∀ vl ∈ sv.2, Preserving vl

mutual

/-- Every rule reachable in the container's tree is value-preserving. -/
def containerPreserving : Container → Prop
  | .mk _ _ props cv => chainsPreserving cv ∧ propsPreserving props
termination_by c => (sizeOf c, 0)

/-- Every rule reachable from the property list is value-preserving. -/
def propsPreserving : List PropDesc → Prop
  | [] => True
  | p :: rest => propPreserving p ∧ propsPreserving rest
termination_by l => (sizeOf l, 1)

/-- Every rule reachable from the property is value-preserving. -/
def propPreserving : PropDesc → Prop
  | .mk _ _ _ _ _ _ nestedOpt pvals =>
    chainsPreserving pvals ∧ optContainerPreserving nestedOpt
termination_by p => (sizeOf p, 0)

/-- Every rule reachable from an optional nested container is
value-preserving. -/
def optContainerPreserving : Option Container → Prop
  | none => True
  | some c => containerPreserving c
termination_by o => (sizeOf o, 0)

end

/-- Every rule of an optional resolved chain is value-preserving. -/
def optChainPreserving : Option (List Validator) → Prop
  | none => True
  | some vs => ∀ vl ∈ vs, Preserving vl

/-!  ## Helper lemmas -/

/-- Appending one token to a pointer appends one `/token` segment. -/
theorem ptrToString_append (p : Ptr) (s : String) :
    ptrToString (p ++ [s]) = ptrToString p ++ "/" ++ s := by
  simp [ptrToString, List.foldl_append]

/-- `appendErrs` consumes its batch head-first. -/
theorem appendErrs_cons (es : ErrSink) (e : String × String)
    (rest : List (String × String)) :
    appendErrs es (e :: rest) = appendErrs (addErr es e.1 e.2) rest := by
  simp [appendErrs]

/-- `appendErrs` of an empty batch is the sink itself. -/
theorem appendErrs_nil (es : ErrSink) : appendErrs es [] = es := rfl

/-- `splitChar` never returns an empty segment list. -/
theorem splitChar_ne_nil (sep : Char) (cs : List Char) :
    splitChar sep cs ≠ [] := by
  induction cs with
  | nil => simp [splitChar]
  | cons c rest ih =>
    by_cases hc : c = sep
    · simp [splitChar, hc]
    · cases h : splitChar sep rest with
      | nil => exact absurd h ih
      | cons s ss => simp [splitChar, hc, h]

/-- Splitting distributes over an interposed separator occurrence. -/
theorem splitChar_append_sep (sep : Char) (x y : List Char) :
    splitChar sep (x ++ sep :: y) = splitChar sep x ++ splitChar sep y := by
  induction x with
  | nil => simp [splitChar]
  | cons c rest ih =>
    by_cases hc : c = sep
    · simp [splitChar, hc, ih]
    · cases h : splitChar sep rest with
      | nil => exact absurd h (splitChar_ne_nil sep rest)
      | cons s ss => simp [splitChar, hc, ih, h]

/-- The universal set name `*` is always in the active set collection. -/
theorem parseSets_contains_star (vs : Option String) :
    (parseSets vs).contains "*" = true := by
  cases vs with
  | none => simp [parseSets]
  | some s =>
    by_cases hs : s == ""
    · simp [parseSets, hs]
    · have hdata : (jsTrim s ++ ",*").data = (jsTrim s).data ++ ',' :: ['*'] := by
        simp [String.data_append]
      simp only [parseSets, hs, if_false, hdata, splitChar_append_sep]
      simp [splitChar, List.contains_eq_any_beq]
      right
      decide

/-!  ## Claim C1 — top-level fault vs. result distinction -/

/-- C1: a `normalize` call with a null or non-object record raises a usage
fault before any traversal and produces no error-sink result; otherwise the
call returns `null` exactly when the run recorded zero validation errors,
and returns the non-empty address-to-message-list mapping otherwise. -/
theorem normalizeRecord_fault_vs_result
    (recordTypes : List (String × Container)) (recordTypeName : String)
    (record : JSValue) (validationSets : Option String) :
    (typeofObjectNotNull record = false →
      normalizeRecord recordTypes recordTypeName record validationSets =
        .error .recordNotProvided) ∧
    (typeofObjectNotNull record = true →
      ∀ rt, recordTypes.find? (fun e => e.1 == recordTypeName) = some rt →
        ((normalizeRecord recordTypes recordTypeName record validationSets =
            .ok none ↔ fullRunSink rt.2 record validationSets = []) ∧
         (∀ es,
            normalizeRecord recordTypes recordTypeName record validationSets =
              .ok (some es) →
            es = fullRunSink rt.2 record validationSets ∧ es ≠ []))) := by
  constructor
  · intro h
    simp [normalizeRecord, h]
  · intro h rt hrt
    have hn : normalizeRecord recordTypes recordTypeName record validationSets =
        .ok (if errEmpty (fullRunSink rt.2 record validationSets) then none
          else some (fullRunSink rt.2 record validationSets)) := by
      simp [normalizeRecord, h, hrt]
    cases hes : fullRunSink rt.2 record validationSets with
    | nil =>
      rw [hes] at hn
      simp only [errEmpty, List.isEmpty_nil, if_true] at hn
      exact ⟨by simp [hn], by simp [hn]⟩
    | cons e es' =>
      rw [hes] at hn
      simp only [errEmpty, List.isEmpty_cons] at hn
      rw [if_neg (by simp)] at hn
      refine ⟨by simp [hn], ?_⟩
      intro es hok
      rw [hn] at hok
      simp only [Except.ok.injEq, Option.some.injEq] at hok
      exact ⟨hok.symm, by simp [← hok]⟩

/-- Witness for C1 at concrete inputs: a record-less call faults, and a
trivially valid record yields the `null` result. -/
theorem normalizeRecord_fault_vs_result_witness :
    normalizeRecord [("R", Container.mk false "t" [] none)] "R"
        .vNull none = .error .recordNotProvided ∧
    normalizeRecord [("R", Container.mk false "t" [] none)] "R"
        (.vObj []) none = .ok none := by
  constructor
  · exact (normalizeRecord_fault_vs_result [("R", Container.mk false "t" [] none)]
      "R" .vNull none).1 rfl
  · have h := ((normalizeRecord_fault_vs_result
      [("R", Container.mk false "t" [] none)] "R" (.vObj []) none).2 rfl
      ("R", Container.mk false "t" [] none) rfl).1
    refine h.mpr ?_
    simp [fullRunSink, parseSets, normalizeChildren, normProps, getValidators,
      Container.validators]

/-!  ## Claim C3 — language preference order in message resolution -/

/-- C3 (code bug): the claim says `renderMessage` picks the matching
preferred language of highest weight; the constructor, however, sorts the
languages ascending by weight (`_langs`, lines 32–38) while
`_findMessageTemplate` (lines 94–98) scans that list from the front, so the
lowest-weight matching language wins.  At the failing input
`"fr;q=0.1, en;q=0.9"` with templates for both `fr` and `en`, the resolver's
language list is `["fr", "en"]` (ascending weight) and the `fr` template is
returned, where the claim requires the `en` (weight 0.9) template. -/
theorem findMessageTmpl_lowest_weight_first :
    mkLangs "fr;q=0.1, en;q=0.9" = ["fr", "en"] ∧
    findMessageTmpl (mkLangs "fr;q=0.1, en;q=0.9")
      [("fr", "Bonjour"), ("en", "Hello")] = some "Bonjour" := by
  constructor
  · decide
  · decide

/-!  ## Claim C5 — the emptiness test used by `required` / `empty` -/

/-- C5: the emptiness test used by the `required` and `empty` rules returns
true for the two null-like forms; true for a zero-length array when the
address denotes a whole array property (not a collection element); true for
a zero-key object when it denotes a whole map property; true for the empty
string on a string scalar or a string collection element; and false for
numeric `0` and boolean `false`.  The `required` rule reports `{missing}`
exactly when this test holds. -/
theorem isEmptyVal_spec (pd : PDLite) (ce : Bool) :
    (∀ v, isNullish v = true → isEmptyVal ce pd v = true) ∧
    (pd.arrayFlag = true → ce = false → isEmptyVal ce pd (.vArr []) = true) ∧
    (pd.mapFlag = true → ce = false → isEmptyVal ce pd (.vObj []) = true) ∧
    (pd.scalarValueType = "string" → (pd.scalarFlag = true ∨ ce = true) →
      isEmptyVal ce pd (.vStr "") = true) ∧
    isEmptyVal ce pd (.vNum 0) = false ∧
    isEmptyVal ce pd (.vBool false) = false ∧
    (∀ v, (requiredRule ce pd v).1 =
      if isEmptyVal ce pd v then ["{missing}"] else []) := by
  refine ⟨?_, ?_, ?_, ?_, ?_, ?_, ?_⟩
  · intro v hv
    cases v <;> simp_all [isNullish, isEmptyVal]
  · intro h1 h2
    simp [isEmptyVal, h1, h2]
  · intro h1 h2
    simp [isEmptyVal, h1, h2, objKeyCount, typeofObjectNotNull]
  · intro h1 h2
    rcases h2 with h2 | h2 <;>
      simp [isEmptyVal, h1, h2, typeofObjectNotNull]
  · simp [isEmptyVal, typeofObjectNotNull]
  · simp [isEmptyVal, typeofObjectNotNull]
  · intro v
    by_cases hv : isEmptyVal ce pd v = true <;> simp [requiredRule, hv]

/-- Witness for C5 at concrete descriptors and values. -/
theorem isEmptyVal_spec_witness :
    isEmptyVal false ⟨true, false, false, "number"⟩ (.vArr []) = true ∧
    isEmptyVal false ⟨false, true, false, "number"⟩ (.vObj []) = true ∧
    isEmptyVal false ⟨false, false, true, "string"⟩ (.vStr "") = true ∧
    isEmptyVal false ⟨false, false, true, "number"⟩ (.vNum 0) = false := by
  refine ⟨?_, ?_, ?_, ?_⟩
  · exact (isEmptyVal_spec ⟨true, false, false, "number"⟩ false).2.1 rfl rfl
  · exact (isEmptyVal_spec ⟨false, true, false, "number"⟩ false).2.2.1 rfl rfl
  · exact (isEmptyVal_spec ⟨false, false, true, "string"⟩ false).2.2.2.1 rfl
      (Or.inl rfl)
  · exact (isEmptyVal_spec ⟨false, false, true, "number"⟩ false).2.2.2.2.2.1

/-!  ## Claim C9 — the ordered-pair (`rangeDef`) rule -/

/-- `charListLT` is asymmetric. -/
theorem charListLT_asymm (x y : List Char) (h : charListLT x y = true) :
    charListLT y x = false := by
  induction x generalizing y with
  | nil => cases y <;> simp_all [charListLT]
  | cons a as ih =>
    cases y with
    | nil => simp_all [charListLT]
    | cons b bs =>
      simp only [charListLT] at h ⊢
      by_cases h1 : a.val.toNat < b.val.toNat
      · have h2 : ¬ b.val.toNat < a.val.toNat := by omega
        simp [h1, h2]
      · by_cases h2 : b.val.toNat < a.val.toNat
        · simp [h1, h2] at h
        · simp only [h1, h2, if_false] at h ⊢
          exact ih bs h

/-- The strict comparison implies the non-strict one on the modelled
domain. -/
theorem jsGT_imp_jsGE (a b : JSValue) (h : jsGT a b = true) :
    jsGE a b = true := by
  cases a <;> cases b <;> simp_all [jsGT, jsGE]
  · omega
  · exact charListLT_asymm _ _ h

/-- C9: the `rangeDef` rule on sibling properties `(lo, hi)` of the current
(non-polymorphic) object reports nothing when either sibling's address
already has recorded errors, or when either sibling's value is null-like;
otherwise, when the low value exceeds the high value, it reports exactly one
`{invalidRangeDef}` error keyed at the high sibling's address — never at the
low one — with the low sibling's display title as the `rangeLoName`
parameter.  The value is returned unchanged. -/
theorem rangeDef_spec (propLo propHi flags : String) (ctx : RangeCtx)
    (fields : List (String × JSValue))
    (hpoly : ctx.polymorphContainer = false) :
    ((errHas ctx.errs (ctx.curPtrStr ++ "/" ++ propLo) = true ∨
      errHas ctx.errs (ctx.curPtrStr ++ "/" ++ propHi) = true) →
      (rangeDef propLo propHi flags ctx (.vObj fields)).1 = []) ∧
    ((isNullish (objGet (.vObj fields) propLo) = true ∨
      isNullish (objGet (.vObj fields) propHi) = true) →
      (rangeDef propLo propHi flags ctx (.vObj fields)).1 = []) ∧
    (errHas ctx.errs (ctx.curPtrStr ++ "/" ++ propLo) = false →
     errHas ctx.errs (ctx.curPtrStr ++ "/" ++ propHi) = false →
     isNullish (objGet (.vObj fields) propLo) = false →
     isNullish (objGet (.vObj fields) propHi) = false →
     jsGT (objGet (.vObj fields) propLo) (objGet (.vObj fields) propHi) =
       true →
      rangeDef propLo propHi flags ctx (.vObj fields) =
        ([(ctx.curPtrStr ++ "/" ++ propHi, "{invalidRangeDef}",
          [("rangeLoName", ctx.title (ctx.curPtrStr ++ "/" ++ propLo)),
           ("rangeLoNameCaps",
             capFirst (ctx.title (ctx.curPtrStr ++ "/" ++ propLo)))])],
         .vObj fields)) := by
  have hno : isNullish (.vObj fields) = false := rfl
  have hto : typeofObjectNotNull (.vObj fields) = true := rfl
  refine ⟨?_, ?_, ?_⟩
  · intro h
    rcases h with h | h <;> simp [rangeDef, hno, hto, hpoly, h]
  · intro h
    rcases h with h | h <;>
      by_cases h1 : errHas ctx.errs (ctx.curPtrStr ++ "/" ++ propLo) = true <;>
      by_cases h2 : errHas ctx.errs (ctx.curPtrStr ++ "/" ++ propHi) = true <;>
      simp [rangeDef, hno, hto, hpoly, h, h1, h2]
  · intro h1 h2 h3 h4 hgt
    have hge := jsGT_imp_jsGE _ _ hgt
    by_cases hnz : hasWordNonZero flags <;>
      simp [rangeDef, hno, hto, hpoly, h1, h2, h3, h4, hgt, hge, hnz]

/-- Witness for C9: the spec's `timeFrom`/`timeTo` example reports only at
`/timeTo`, parameterized with the low field's title. -/
theorem rangeDef_spec_witness :
    rangeDef "timeFrom" "timeTo" ""
      ⟨"", false, "type", [],
        fun p => if p == "/timeFrom" then "time from" else "x"⟩
      (.vObj [("timeFrom", .vStr "10:00"), ("timeTo", .vStr "09:00")]) =
      ([("/timeTo", "{invalidRangeDef}",
        [("rangeLoName", "time from"), ("rangeLoNameCaps", "Time from")])],
       .vObj [("timeFrom", .vStr "10:00"), ("timeTo", .vStr "09:00")]) := by
  have h := (rangeDef_spec "timeFrom" "timeTo" ""
    ⟨"", false, "type", [],
      fun p => if p == "/timeFrom" then "time from" else "x"⟩
    [("timeFrom", .vStr "10:00"), ("timeTo", .vStr "09:00")] rfl).2.2
    (by decide) (by decide) (by decide) (by decide) (by decide)
  simpa using h

/-!  ## Claims C7 / C10 — rule-chain resolution -/

/-- The `getValidators` loop appends exactly the spec-side whole-value
chain when resolving with `element` false. -/
theorem gvLoop_false_eq (sets : List String)
    (l : List (String × List Validator)) (acc : List Validator) :
    gvLoop false sets l acc = acc ++ specWholeChain l sets := by
  induction l generalizing acc with
  | nil => simp [gvLoop, specWholeChain]
  | cons sv rest ih =>
    by_cases hc : sv.1 ∈ sets <;>
      simp [gvLoop, specWholeChain, hc, ih, List.append_assoc]

/-- The `getValidators` loop appends exactly the spec-side element chain
when resolving with `element` true. -/
theorem gvLoop_true_eq (sets : List String)
    (l : List (String × List Validator)) (acc : List Validator) :
    gvLoop true sets l acc = acc ++ specElementChain l sets := by
  induction l generalizing acc with
  | nil => simp [gvLoop, specElementChain]
  | cons sv rest ih =>
    by_cases hp : strStartsWith sv.1 "element:" = true
    · by_cases hc : sv.1.drop ("element:".length) ∈ sets <;>
        simp [gvLoop, specElementChain, hp, hc, ih, List.append_assoc]
    · simp [gvLoop, specElementChain, hp, ih]

/-- C7: the active set collection always contains the universal set `*`;
the resolved whole-value chain is the concatenation, in set-declaration
iteration order, of the rule lists of the sets whose name is active, and the
element chain the concatenation over `element:`-prefixed sets whose stripped
name is active; when nothing matches the resolver returns `null` and the
engine runs no chain. -/
theorem getValidators_spec :
    (∀ vs, (parseSets vs).contains "*" = true) ∧
    (∀ l sets, getValidators (some l) false sets =
       if (specWholeChain l sets).isEmpty then none
       else some (specWholeChain l sets)) ∧
    (∀ l sets, getValidators (some l) true sets =
       if (specElementChain l sets).isEmpty then none
       else some (specElementChain l sets)) ∧
    (∀ el sets, getValidators none el sets = none) ∧
    (∀ es ptr chain v, runChainOpt none es ptr chain v = (es, v)) := by
  refine ⟨parseSets_contains_star, ?_, ?_, fun _ _ => rfl, fun _ _ _ _ => rfl⟩
  · intro l sets
    show (if (gvLoop false sets l []).isEmpty then none
      else some (gvLoop false sets l [])) = _
    rw [gvLoop_false_eq sets l [], List.nil_append]
  · intro l sets
    show (if (gvLoop true sets l []).isEmpty then none
      else some (gvLoop true sets l [])) = _
    rw [gvLoop_true_eq sets l [], List.nil_append]

/-- Witness for C7: a concrete resolution and the implicit universal set. -/
theorem getValidators_spec_witness :
    getValidators (some [("onCreate", [reportAtCurrent "m"])]) false
      ["onCreate", "*"] = some [reportAtCurrent "m"] ∧
    (parseSets (some "onCreate")).contains "*" = true := by
  constructor
  · have h := getValidators_spec.2.1 [("onCreate", [reportAtCurrent "m"])]
      ["onCreate", "*"]
    rw [h]
    simp [specWholeChain]
  · exact getValidators_spec.1 (some "onCreate")

/-- Membership in the spec-side whole-value chain for a declared active
set. -/
theorem mem_specWholeChain (l : List (String × List Validator))
    (sets : List String) (nm : String) (rules : List Validator)
    (vl : Validator) (hmem : (nm, rules) ∈ l)
    (hact : sets.contains nm = true) (hvl : vl ∈ rules) :
    vl ∈ specWholeChain l sets := by
  have hactm : nm ∈ sets := by simpa using hact
  induction l with
  | nil => cases hmem
  | cons sv rest ih =>
    rcases List.mem_cons.mp hmem with heq | hmem2
    · rw [← heq]
      simp only [specWholeChain]
      exact List.mem_append_left _ (by simp [hactm, hvl])
    · simp only [specWholeChain]
      exact List.mem_append_right _ (ih hmem2)

/-- C10: when no active set name carries the `element:` prefix, the
whole-value chain draws no rules from `element:`-prefixed declared sets;
but a set literally activated under an `element:`-prefixed name does
contribute its rules to the whole-value chain, because the prefix filter is
applied only when resolving element chains. -/
theorem elementPrefix_only_filters_element_chains :
    (∀ l (sets : List String),
      (∀ a ∈ sets, strStartsWith a "element:" = false) →
      getValidators (some l) false sets =
        getValidators
          (some (l.filter (fun sv => !(strStartsWith sv.1 "element:"))))
          false sets) ∧
    (∀ l (sets : List String) s rules vl, ("element:" ++ s, rules) ∈ l →
      sets.contains ("element:" ++ s) = true → vl ∈ rules →
      vl ∈ (getValidators (some l) false sets).getD []) := by
  constructor
  · intro l sets hsets
    have hspec : specWholeChain l sets =
        specWholeChain (l.filter (fun sv => !(strStartsWith sv.1 "element:")))
          sets := by
      induction l with
      | nil => simp [specWholeChain]
      | cons sv rest ih =>
        by_cases hp : strStartsWith sv.1 "element:" = true
        · have hcm : sv.1 ∉ sets := fun hmem =>
            absurd (hsets sv.1 hmem) (by simp [hp])
          simp [specWholeChain, List.filter_cons, hp, hcm, ih]
        · simp [specWholeChain, List.filter_cons, hp, ih]
    rw [getValidators_spec.2.1, getValidators_spec.2.1, hspec]
  · intro l sets s rules vl hmem hact hvl
    have h := mem_specWholeChain l sets ("element:" ++ s) rules vl hmem hact hvl
    have hne : (specWholeChain l sets).isEmpty = false := by
      cases hsw : specWholeChain l sets with
      | nil => rw [hsw] at h; cases h
      | cons a rest => simp
    rw [getValidators_spec.2.1, hne]
    simpa using h

/-- Witness for C10 at concrete inputs: with only `*` active nothing from
`element:`-prefixed sets reaches the whole-value chain, while activating the
literal name `element:custom` pulls its rules into the whole-value chain. -/
theorem elementPrefix_only_filters_element_chains_witness :
    getValidators (some [("element:custom", [reportAtCurrent "m"])]) false
        ["*"] =
      getValidators (some ([("element:custom", [reportAtCurrent "m"])].filter
        (fun sv => !(strStartsWith sv.1 "element:")))) false ["*"] ∧
    reportAtCurrent "m" ∈
      (getValidators (some [("element:custom", [reportAtCurrent "m"])]) false
        ["element:custom", "*"]).getD [] := by
  constructor
  · exact elementPrefix_only_filters_element_chains.1
      [("element:custom", [reportAtCurrent "m"])] ["*"] (by decide)
  · exact elementPrefix_only_filters_element_chains.2
      [("element:custom", [reportAtCurrent "m"])] ["element:custom", "*"]
      "custom" [reportAtCurrent "m"] (reportAtCurrent "m")
      (List.mem_cons_self _ _) (by decide) (List.mem_cons_self _ _)

/-!  ## Claim C6 — polymorphic container with a bad discriminator -/

/-- C6: on a tagged-union container whose discriminator value in the record
is not a string or not a declared variant name, `normalizeChildren` reports
exactly one `{invalidType}` error keyed at the current address extended with
the discriminator property name, returns the container object untouched and
descends into none of its properties; and (second conjunct) when such a
union sits in a field of a parent container, the parent's property loop
continues with the remaining sibling properties from exactly that
one-error state. -/
theorem unionBadDiscriminator_spec :
    (∀ tp props cv stn es ptr chain obj sets,
      badDiscriminator (objGet obj tp) props = true →
      normalizeChildren (Container.mk true tp props cv) stn es ptr chain obj
        sets =
        (addErr es (ptrToString ptr ++ "/" ++ tp) "{invalidType}", obj)) ∧
    (∀ uname tp uprops ucv rest sel es ptr chain obj sets,
      badDiscriminator (objGet (objGet obj uname) tp) uprops = true →
      typeofObjectNotNull (objGet obj uname) = true →
      normProps (PropDesc.mk uname false false false false "object"
          (some (Container.mk true tp uprops ucv)) none :: rest)
        sel none es ptr chain obj sets =
        normProps rest sel none
          (addErr es (ptrToString (ptr ++ [uname]) ++ "/" ++ tp)
            "{invalidType}")
          ptr chain obj sets) := by
  have hmain : ∀ tp props cv stn es ptr chain obj
      (sets : List String),
      badDiscriminator (objGet obj tp) props = true →
      normalizeChildren (Container.mk true tp props cv) stn es ptr chain obj
        sets =
        (addErr es (ptrToString ptr ++ "/" ++ tp) "{invalidType}", obj) := by
    intro tp props cv stn es ptr chain obj sets hbad
    cases h : objGet obj tp with
    | vStr st =>
      rw [h] at hbad
      simp only [badDiscriminator, Bool.not_eq_true'] at hbad
      simp [normalizeChildren, h, hbad]
    | vUndefined => simp [normalizeChildren, h]
    | vNull => simp [normalizeChildren, h]
    | vBool b => simp [normalizeChildren, h]
    | vNum n => simp [normalizeChildren, h]
    | vArr a => simp [normalizeChildren, h]
    | vObj fs => simp [normalizeChildren, h]
  refine ⟨hmain, ?_⟩
  intro uname tp uprops ucv rest sel es ptr chain obj sets hbad htype
  have hstep := hmain tp uprops ucv none es (ptr ++ [uname])
    (chain ++ [obj]) (objGet obj uname) sets hbad
  simp only [normProps, normProp]
  simp [htype, hstep, getValidators, runChainOpt, beqRefl]

/-- Witness for C6: a union on field `u` with an undeclared discriminator
value `X` yields exactly the `{invalidType}` error at `/u/kind`, leaves the
record untouched, and the sibling loop proceeds from that state. -/
theorem unionBadDiscriminator_spec_witness :
    normalizeChildren
      (Container.mk true "kind"
        [PropDesc.mk "D" false true false false "object"
          (some (Container.mk false "t" [] none)) none] none)
      none [] ["u"] [] (.vObj [("kind", .vStr "X")]) ["*"] =
      ([("/u/kind", ["{invalidType}"])], .vObj [("kind", .vStr "X")]) ∧
    (∀ rest, normProps (PropDesc.mk "u" false false false false "object"
        (some (Container.mk true "kind"
          [PropDesc.mk "D" false true false false "object"
            (some (Container.mk false "t" [] none)) none] none)) none :: rest)
      none none [] [] []
      (.vObj [("u", .vObj [("kind", .vStr "X")]), ("s", .vNum 5)]) ["*"] =
      normProps rest none none [("/u/kind", ["{invalidType}"])] [] []
        (.vObj [("u", .vObj [("kind", .vStr "X")]), ("s", .vNum 5)]) ["*"]) := by
  constructor
  · have h := unionBadDiscriminator_spec.1 "kind"
      [PropDesc.mk "D" false true false false "object"
        (some (Container.mk false "t" [] none)) none] none
      none [] ["u"] [] (.vObj [("kind", .vStr "X")]) ["*"] (by decide)
    rw [h]
    simp [ptrToString, addErr]
  · intro rest
    have h := unionBadDiscriminator_spec.2 "u" "kind"
      [PropDesc.mk "D" false true false false "object"
        (some (Container.mk false "t" [] none)) none] none rest none [] [] []
      (.vObj [("u", .vObj [("kind", .vStr "X")]), ("s", .vNum 5)]) ["*"]
      (by decide) (by decide)
    rw [h]
    rfl

/-!  ## Claim C4 — element and union-variant error addressing -/

/-- An ordinary scalar property whose resolved whole-value chain is a single
current-address reporter reports exactly once, keyed at the current pointer
extended with the property's token — the plain name, or `variant:name` under
a selected union variant — and leaves the container object unchanged. -/
theorem normProp_scalar_reporter (pname svt m : String)
    (pvals : Option (List (String × List Validator)))
    (sel stn : Option String) (es : ErrSink) (ptr : Ptr)
    (chain : List JSValue) (obj : JSValue) (sets : List String)
    (hsvt : (svt == "object") = false)
    (hev : getValidators pvals false sets = some [reportAtCurrent m]) :
    normProp (PropDesc.mk pname false false false false svt none pvals)
      sel stn es ptr chain obj sets =
      (addErr es (ptrToString ptr ++ "/" ++
        (match stn with | some sn => sn ++ ":" ++ pname | none => pname)) m,
       obj) := by
  cases stn <;>
    simp [normProp, hsvt, hev, runChainOpt, runChain, reportAtCurrent,
      appendErrs, beqRefl, ptrToString_append]

/-- C4: errors reported while validating array element `i` of field `f` are
keyed `/f/i` (current pointer extended with the decimal index); errors on a
field under selected union variant `V` are keyed with the `V:name` token
(the variant name, a colon, and the field name); and the engine wires these
up: the array branch runs the element chain per index from 0, and a selected
subtype property recurses into its variant container passing the variant
name as the token qualifier. -/
theorem elementAndVariantAddressing_spec :
    (∀ (m : String) es ptr2 chain2 done todo idx,
      normScalarElems [reportAtCurrent m] es ptr2 chain2 done todo idx =
        (appendErrs es (reportKeys m (ptrToString ptr2) idx todo),
         done ++ todo)) ∧
    (∀ (fname svt m : String) elems pvals es ptr chain obj sets sel,
      (svt == "object") = false →
      getValidators pvals true sets = some [reportAtCurrent m] →
      getValidators pvals false sets = none →
      objGet obj fname = .vArr elems →
      normProp (PropDesc.mk fname false false true false svt none pvals)
        sel none es ptr chain obj sets =
        (appendErrs es (reportKeys m (ptrToString (ptr ++ [fname])) 0 elems),
         obj)) ∧
    (∀ (fname svt m V : String) pvals sel es ptr chain obj sets,
      (svt == "object") = false →
      getValidators pvals false sets = some [reportAtCurrent m] →
      normProp (PropDesc.mk fname false false false false svt none pvals)
        sel (some V) es ptr chain obj sets =
        (addErr es (ptrToString ptr ++ "/" ++ (V ++ ":" ++ fname)) m, obj)) ∧
    (∀ (dname svt : String) cd stn es ptr chain obj sets,
      normProp (PropDesc.mk dname false true false false svt (some cd) none)
        (some dname) stn es ptr chain obj sets =
        normalizeChildren cd (some dname) es ptr chain obj sets) := by
  have h1 : ∀ (m : String) es ptr2 chain2 done todo idx,
      normScalarElems [reportAtCurrent m] es ptr2 chain2 done todo idx =
        (appendErrs es (reportKeys m (ptrToString ptr2) idx todo),
         done ++ todo) := by
    intro m es ptr2 chain2 done todo idx
    induction todo generalizing es done idx with
    | nil => simp [normScalarElems, reportKeys, appendErrs]
    | cons e rest ih =>
      simp only [normScalarElems, runChain, List.foldl, reportAtCurrent,
        reportKeys]
      rw [beqRefl e]
      simp only [if_true, ih, appendErrs_cons, appendErrs, List.foldl]
      rw [ptrToString_append]
      simp [List.append_assoc]
  refine ⟨h1, ?_, ?_, ?_⟩
  · intro fname svt m elems pvals es ptr chain obj sets sel hsvt hev hwv hget
    cases elems with
    | nil => simp [normProp, hget, hsvt, hev, hwv, runChainOpt, reportKeys,
        appendErrs, beqRefl]
    | cons e0 erest =>
      simp only [normProp]
      simp [hget, hsvt, hev, hwv, h1, runChainOpt, beqRefl]
  · intro fname svt m V pvals sel es ptr chain obj sets hsvt hev
    exact normProp_scalar_reporter fname svt m pvals sel (some V) es
      ptr chain obj sets hsvt hev
  · intro dname svt cd stn es ptr chain obj sets
    cases stn <;> simp [normProp, getValidators]

/-- Witness for C4: three concrete elements of field `scores` are reported
at `/scores/0`, `/scores/1`, `/scores/2`, and a reporter on field `name`
under selected variant `Dog` of field `pet` is keyed `/pet/Dog:name`. -/
theorem elementAndVariantAddressing_spec_witness :
    normScalarElems [reportAtCurrent "{eBad}"] [] ["scores"] []
        [] [.vNum 1, .vNum 2, .vNum 3] 0 =
      ([("/scores/0", ["{eBad}"]), ("/scores/1", ["{eBad}"]),
        ("/scores/2", ["{eBad}"])], [.vNum 1, .vNum 2, .vNum 3]) ∧
    normProp (PropDesc.mk "name" false false false false "string" none
        (some [("*", [reportAtCurrent "{nBad}"])]))
      none (some "Dog") [] ["pet"] [] (.vObj [("name", .vStr "Rex")]) ["*"] =
      ([("/pet/Dog:name", ["{nBad}"])], .vObj [("name", .vStr "Rex")]) := by
  constructor
  · have h := elementAndVariantAddressing_spec.1 "{eBad}" [] ["scores"] []
      [] [.vNum 1, .vNum 2, .vNum 3] 0
    rw [h]
    have ht0 : toString (0 : Nat) = "0" := rfl
    have ht1 : toString (0 + 1 : Nat) = "1" := rfl
    have ht2 : toString (0 + 1 + 1 : Nat) = "2" := rfl
    simp [reportKeys, appendErrs, addErr, ptrToString, ht0, ht1, ht2]
  · have h := elementAndVariantAddressing_spec.2.2.1 "name" "string" "{nBad}"
      "Dog" (some [("*", [reportAtCurrent "{nBad}"])]) none [] ["pet"] []
      (.vObj [("name", .vStr "Rex")]) ["*"] (by decide)
      (by simp [getValidators, gvLoop])
    rw [h]
    rfl

/-!  ## Claim C2 — children fully processed before parent chains run -/

/-- After appending a message under a key, that key has errors. -/
theorem errHas_addErr_self (es : ErrSink) (k m : String) :
    errHas (addErr es k m) k = true := by
  by_cases hany : es.any (fun e => e.1 == k) = true
  · have hmap : ∀ es2 : ErrSink, es2.any (fun e => e.1 == k) = true →
        errHas (es2.map (fun e => if e.1 == k then (e.1, e.2 ++ [m]) else e))
          k = true := by
      intro es2 h2
      induction es2 with
      | nil => simp at h2
      | cons e rest ih =>
        by_cases he2 : e.1 = k
        · simp [errHas, he2]
        · have hbeq : (e.1 == k) = false := by simpa using he2
          simp only [List.any_cons, hbeq, Bool.false_or] at h2
          have ihh := ih h2
          simp only [List.map_cons, if_neg he2, errHas] at ihh ⊢
          rw [List.find?_cons_of_neg _ (by simp [he2])]
          exact ihh
    simp only [addErr, hany, if_true]
    exact hmap es hany
  · simp only [addErr, hany, if_false]
    have hnone : es.find? (fun e => e.1 == k) = none := by
      rw [List.find?_eq_none]
      intro x hx
      exact fun hxk => hany (List.any_eq_true.mpr ⟨x, hx, hxk⟩)
    simp [errHas, List.find?_append, hnone]

/-- A chain consisting of one current-address reporter run by `runChain`
reports once at the current pointer and passes the value through. -/
theorem runChain_reporter (m : String) (es : ErrSink) (ptr : Ptr)
    (chain : List JSValue) (v : JSValue) :
    runChain [reportAtCurrent m] es ptr chain v =
      (addErr es (ptrToString ptr) m, v) := by
  simp [runChain, reportAtCurrent, appendErrs]

/-- C2: the record-type-level chain runs after every field of the record has
been processed, against exactly the sink the recursive children traversal
produced (first conjunct); a field's own chain is recorded before the
record-level rule runs, so `hasErrorsFor` on the field's address observed
from inside the record-level rule is true (second conjunct); and a nested
object's children are fully processed before the enclosing field's own
whole-value chain runs, which therefore observes the nested field's error
(third conjunct). -/
theorem childrenBeforeParentChain_spec :
    (∀ recordTypes (recordTypeName : String) record vs
        (rt : String × Container) f,
      recordTypes.find? (fun e => e.1 == recordTypeName) = some rt →
      typeofObjectNotNull record = true →
      getValidators rt.2.validators false (parseSets vs) = some [obsWrap f] →
      normalizeRecord recordTypes recordTypeName record vs =
        (let r := normalizeChildren rt.2 none [] [] [] record (parseSets vs)
         let es2 := appendErrs r.1 (f r.1 r.2)
         Except.ok (if errEmpty es2 then none else some es2))) ∧
    (∀ (tp xname svt mx yes no : String) xvals rv record vs,
      (svt == "object") = false →
      getValidators xvals false (parseSets vs) = some [reportAtCurrent mx] →
      getValidators (some rv) false (parseSets vs) =
        some [observeHasErr ("/" ++ xname) yes no] →
      fullRunSink
        (Container.mk false tp
          [PropDesc.mk xname false false false false svt none xvals]
          (some rv)) record vs =
        addErr (addErr [] ("/" ++ xname) mx) "" yes) ∧
    (∀ (tp yname zname svt mz yes no : String) zvals yvals yfl sel es ptr
        chain obj sets,
      (svt == "object") = false →
      objGet obj yname = .vObj yfl →
      getValidators zvals false sets = some [reportAtCurrent mz] →
      getValidators yvals false sets =
        some [observeHasErr
          (ptrToString (ptr ++ [yname]) ++ "/" ++ zname) yes no] →
      normProp
        (PropDesc.mk yname false false false false "object"
          (some (Container.mk false tp
            [PropDesc.mk zname false false false false svt none zvals] none))
          yvals)
        sel none es ptr chain obj sets =
        (addErr
          (addErr es (ptrToString (ptr ++ [yname]) ++ "/" ++ zname) mz)
          (ptrToString (ptr ++ [yname])) yes, obj)) := by
  have hpt : ptrToString ([] : Ptr) = "" := rfl
  refine ⟨?_, ?_, ?_⟩
  · intro recordTypes recordTypeName record vs rt f hfind hrec hrv
    simp only [normalizeRecord, hrec, Bool.not_true, Bool.false_eq_true,
      if_false, hfind, fullRunSink, hrv, runChainDiscard, List.foldl,
      obsWrap]
  · intro tp xname svt mx yes no xvals rv record vs hsvt hx hrv
    have hchild : normalizeChildren
        (Container.mk false tp
          [PropDesc.mk xname false false false false svt none xvals]
          (some rv)) none [] [] [] record (parseSets vs) =
        (addErr [] ("/" ++ xname) mx, record) := by
      have h := normProp_scalar_reporter xname svt mx xvals none none
        [] [] [] record (parseSets vs) hsvt hx
      simp only [normalizeChildren, normProps, h, hpt]
      rfl
    simp only [fullRunSink, Container.validators, hchild, hrv,
      runChainDiscard, List.foldl, observeHasErr, hpt,
      errHas_addErr_self, if_true]
    simp [appendErrs]
  · intro tp yname zname svt mz yes no zvals yvals yfl sel es ptr chain obj
      sets hsvt hobj hz hy
    have hchild : normalizeChildren
        (Container.mk false tp
          [PropDesc.mk zname false false false false svt none zvals] none)
        none es (ptr ++ [yname]) (chain ++ [obj]) (.vObj yfl) sets =
        (addErr es (ptrToString (ptr ++ [yname]) ++ "/" ++ zname) mz,
         .vObj yfl) := by
      have h := normProp_scalar_reporter zname svt mz zvals none none
        es (ptr ++ [yname]) (chain ++ [obj]) (.vObj yfl) sets hsvt hz
      simp only [normalizeChildren, Bool.false_eq_true, if_false, normProps,
        h]
    simp [normProp, hobj, hchild, hy, runChainOpt, runChain, observeHasErr,
      errHas_addErr_self, appendErrs, beqRefl, typeofObjectNotNull]

/-- Witness for C2: a record rule observing the sink sees the field chain's
error; instantiated with an empty-record type for the first conjunct, the
concrete field `x` for the second, and nested `y.z` for the third. -/
theorem childrenBeforeParentChain_spec_witness :
    normalizeRecord [("R", Container.mk false "t" []
        (some [("*", [obsWrap (fun _ _ => [("", "probe")])])]))] "R"
      (.vObj []) none = .ok (some [("", ["probe"])]) ∧
    fullRunSink
      (Container.mk false "t"
        [PropDesc.mk "x" false false false false "number" none
          (some [("*", [reportAtCurrent "{badX}"])])]
        (some [("*", [observeHasErr "/x" "sawX" "missedX"])]))
      (.vObj [("x", .vNum 0)]) none =
      [("/x", ["{badX}"]), ("", ["sawX"])] ∧
    normProp
      (PropDesc.mk "y" false false false false "object"
        (some (Container.mk false "t"
          [PropDesc.mk "z" false false false false "number" none
            (some [("*", [reportAtCurrent "{zbad}"])])] none))
        (some [("*", [observeHasErr "/y/z" "sawZ" "missedZ"])]))
      none none [] [] [] (.vObj [("y", .vObj [("z", .vNum 1)])]) ["*"] =
      ([("/y/z", ["{zbad}"]), ("/y", ["sawZ"])],
       .vObj [("y", .vObj [("z", .vNum 1)])]) := by
  refine ⟨?_, ?_, ?_⟩
  · have h := childrenBeforeParentChain_spec.1
      [("R", Container.mk false "t" []
        (some [("*", [obsWrap (fun _ _ => [("", "probe")])])]))] "R"
      (.vObj []) none
      ("R", Container.mk false "t" []
        (some [("*", [obsWrap (fun _ _ => [("", "probe")])])]))
      (fun _ _ => [("", "probe")]) rfl rfl
      (by simp [getValidators, gvLoop, parseSets, Container.validators])
    rw [h]
    simp [normalizeChildren, normProps, appendErrs, addErr, errEmpty]
  · have h := childrenBeforeParentChain_spec.2.1 "t" "x" "number" "{badX}"
      "sawX" "missedX" (some [("*", [reportAtCurrent "{badX}"])])
      [("*", [observeHasErr "/x" "sawX" "missedX"])]
      (.vObj [("x", .vNum 0)]) none (by decide)
      (by simp [getValidators, gvLoop, parseSets])
      (by simp [getValidators, gvLoop, parseSets])
    rw [h]
    rfl
  · have h := childrenBeforeParentChain_spec.2.2 "t" "y" "z" "number"
      "{zbad}" "sawZ" "missedZ" (some [("*", [reportAtCurrent "{zbad}"])])
      (some [("*", [observeHasErr "/y/z" "sawZ" "missedZ"])])
      [("z", JSValue.vNum 1)] none [] [] []
      (.vObj [("y", .vObj [("z", .vNum 1)])]) ["*"] (by decide) rfl
      (by simp [getValidators, gvLoop])
      (by simp [getValidators, gvLoop, ptrToString])
    rw [h]
    rfl

/-!  ## Claim C8 — value-preserving chains never modify the record -/

/-- Rules in the accumulated `getValidators` loop output come from the
accumulator or from a declared set's rule list. -/
theorem gvLoop_mem (el : Bool) (sets : List String)
    (l : List (String × List Validator)) (acc : List Validator)
    (vl : Validator) (h : vl ∈ gvLoop el sets l acc) :
    vl ∈ acc ∨ ∃ sv, sv ∈ l ∧ vl ∈ sv.2 := by
  induction l generalizing acc with
  | nil => simp only [gvLoop] at h; exact Or.inl h
  | cons sv rest ih =>
    simp only [gvLoop] at h
    by_cases h1 : (el && !(strStartsWith sv.1 "element:")) = true
    · rw [if_pos h1] at h
      rcases ih acc h with ha | ⟨sv2, hsv2, hvl2⟩
      · exact Or.inl ha
      · exact Or.inr ⟨sv2, List.mem_cons_of_mem _ hsv2, hvl2⟩
    · rw [if_neg h1] at h
      by_cases h2 : sets.contains
          (if el then sv.1.drop ("element:".length) else sv.1) = true
      · rw [if_pos h2] at h
        rcases ih (acc ++ sv.2) h with ha | ⟨sv2, hsv2, hvl2⟩
        · rcases List.mem_append.mp ha with ha | ha
          · exact Or.inl ha
          · exact Or.inr ⟨sv, List.mem_cons_self _ _, ha⟩
        · exact Or.inr ⟨sv2, List.mem_cons_of_mem _ hsv2, hvl2⟩
      · rw [if_neg h2] at h
        rcases ih acc h with ha | ⟨sv2, hsv2, hvl2⟩
        · exact Or.inl ha
        · exact Or.inr ⟨sv2, List.mem_cons_of_mem _ hsv2, hvl2⟩

/-- When every declared rule is value-preserving, so is every rule of any
chain `getValidators` resolves. -/
theorem getValidators_chainsPreserving
    (pv : Option (List (String × List Validator))) (el : Bool)
    (sets : List String) (hp : chainsPreserving pv) :
    optChainPreserving (getValidators pv el sets) := by
  cases pv with
  | none => simp [getValidators, optChainPreserving]
  | some l =>
    simp only [getValidators]
    by_cases he : (gvLoop el sets l []).isEmpty = true
    · simp [he, optChainPreserving]
    · simp only [he, Bool.false_eq_true, if_false, optChainPreserving]
      intro vl hvl
      rcases gvLoop_mem el sets l [] vl hvl with ha | ⟨sv, hsv, hvl2⟩
      · cases ha
      · exact hp sv hsv vl hvl2

/-- A chain of value-preserving rules passes the value through. -/
theorem runChain_preserving (vs : List Validator) (es : ErrSink) (ptr : Ptr)
    (chain : List JSValue) (v : JSValue)
    (hp : ∀ vl ∈ vs, Preserving vl) :
    (runChain vs es ptr chain v).2 = v := by
  induction vs generalizing es v with
  | nil => rfl
  | cons vl rest ih =>
    simp only [runChain, List.foldl]
    have h1 := hp vl (List.mem_cons_self _ _)
    rw [h1 es ptr chain v]
    exact ih _ _ (fun w hw => hp w (List.mem_cons_of_mem _ hw))

/-- An optional chain of value-preserving rules passes the value through. -/
theorem runChainOpt_preserving (o : Option (List Validator)) (es : ErrSink)
    (ptr : Ptr) (chain : List JSValue) (v : JSValue)
    (hp : optChainPreserving o) : (runChainOpt o es ptr chain v).2 = v := by
  cases o with
  | none => rfl
  | some vs => exact runChain_preserving vs es ptr chain v hp

/-- The scalar array element loop with value-preserving rules rebuilds the
element list unchanged. -/
theorem normScalarElems_preserving (vs : List Validator) (es : ErrSink)
    (ptr2 : Ptr) (chain2 : List JSValue) (done todo : List JSValue)
    (idx : Nat) (hp : ∀ vl ∈ vs, Preserving vl) :
    (normScalarElems vs es ptr2 chain2 done todo idx).2 = done ++ todo := by
  induction todo generalizing es done idx with
  | nil => simp [normScalarElems]
  | cons e rest ih =>
    simp only [normScalarElems]
    rw [runChain_preserving _ _ _ _ _ hp, beqRefl e, if_pos rfl]
    rw [ih _ _ _]
    simp

/-- The scalar map entry loop with value-preserving rules leaves the entry
list unchanged. -/
theorem normScalarEntries_preserving (vs : List Validator) (es : ErrSink)
    (ptr2 : Ptr) (chain2 : List JSValue) (fields : List (String × JSValue))
    (keys : List String) (hp : ∀ vl ∈ vs, Preserving vl) :
    (normScalarEntries vs es ptr2 chain2 fields keys).2 = fields := by
  induction keys generalizing es with
  | nil => simp [normScalarEntries]
  | cons k rest ih =>
    simp only [normScalarEntries]
    rw [runChain_preserving _ _ _ _ _ hp, beqRefl, if_pos rfl]
    exact ih _

/-- Writing back the value a key already holds does not change the entry
list. -/
theorem setField_objGet_self (fields : List (String × JSValue)) (k : String)
    (hk : k ∈ fields.map Prod.fst) :
    setField fields k (objGet (.vObj fields) k) = fields := by
  induction fields with
  | nil => simp at hk
  | cons f rest ih =>
    by_cases hf : f.1 = k
    · have hb : (f.1 == k) = true := by simpa using hf
      simp [setField, objGet, hb]
    · have hb : (f.1 == k) = false := by simpa using hf
      have hget : objGet (.vObj (f :: rest)) k = objGet (.vObj rest) k := by
        simp [objGet, List.find?, hb]
      have hk2 : k ∈ rest.map Prod.fst := by
        rcases List.mem_map.mp hk with ⟨x, hx, hxe⟩
        rcases List.mem_cons.mp hx with hx1 | hx2
        · exact absurd (hx1 ▸ hxe) hf
        · exact List.mem_map.mpr ⟨x, hx2, hxe⟩
      simp only [setField, hb, Bool.false_eq_true, if_false, hget]
      rw [ih hk2]

/-- The ordinary (non-view, non-subtype) property step with value-preserving
machinery hands the container object back unchanged: the chain result equals
the slot's original value, so the `!==` write-back guard fails and the object
is returned as-is.  The facts about the recursive traversal are taken as
hypotheses so the lemma itself needs no recursion. -/
theorem normProp_ordinary_preserving (pname : String) (parr pmap : Bool)
    (psvt : String) (pnested : Option Container)
    (pvals : Option (List (String × List Validator))) (sel stn : Option String)
    (es : ErrSink) (ptr : Ptr) (chain : List JSValue) (obj : JSValue)
    (sets : List String)
    (hr3 : ∀ es2 ptr2 chain2 v,
      (runChainOpt (getValidators pvals false sets) es2 ptr2 chain2 v).2 = v)
    (hne : ∀ es2 ptr2 chain2 done elems idx,
      (normObjElems pnested (getValidators pvals true sets) es2 ptr2 chain2
        done elems idx sets).2 = done ++ elems)
    (hnq : ∀ es2 ptr2 chain2 fields,
      (normObjEntries pnested (getValidators pvals true sets) es2 ptr2 chain2
        fields (fields.map Prod.fst) sets).2 = fields)
    (hsce : ∀ vs, getValidators pvals true sets = some vs →
      ∀ es2 ptr2 chain2 done todo idx,
        (normScalarElems vs es2 ptr2 chain2 done todo idx).2 = done ++ todo)
    (hscq : ∀ vs, getValidators pvals true sets = some vs →
      ∀ es2 ptr2 chain2 fields keys,
        (normScalarEntries vs es2 ptr2 chain2 fields keys).2 = fields)
    (hnsc : ∀ c, pnested = some c → ∀ es2 ptr2 chain2 v,
      (normalizeChildren c none es2 ptr2 chain2 v sets).2 = v) :
    (normProp (PropDesc.mk pname false false parr pmap psvt pnested pvals)
      sel stn es ptr chain obj sets).2 = obj := by
  by_cases harr : parr = true
  · cases hov : objGet obj pname with
    | vArr elems =>
      by_cases hlen : elems.length > 0
      · by_cases hso : (psvt == "object") = true
        · cases pnested <;> cases stn <;>
            simp [normProp, harr, hov, hlen, hso, hne, hr3, beqRefl]
        · cases hev : getValidators pvals true sets with
          | some vs =>
            have h1 := hsce vs hev
            cases pnested <;> cases stn <;>
              simp [normProp, harr, hov, hlen, hso, hev, h1, hr3, beqRefl]
          | none =>
            cases pnested <;> cases stn <;>
              simp [normProp, harr, hov, hlen, hso, hev, hr3, beqRefl]
      · cases pnested <;> cases stn <;>
          simp [normProp, harr, hov, hlen, hr3, beqRefl]
    | vUndefined => cases pnested <;> cases stn <;>
        simp [normProp, harr, hov, hr3, beqRefl]
    | vNull => cases pnested <;> cases stn <;>
        simp [normProp, harr, hov, hr3, beqRefl]
    | vBool b => cases pnested <;> cases stn <;>
        simp [normProp, harr, hov, hr3, beqRefl]
    | vNum m => cases pnested <;> cases stn <;>
        simp [normProp, harr, hov, hr3, beqRefl]
    | vStr s => cases pnested <;> cases stn <;>
        simp [normProp, harr, hov, hr3, beqRefl]
    | vObj fs => cases pnested <;> cases stn <;>
        simp [normProp, harr, hov, hr3, beqRefl]
  · by_cases hmp : pmap = true
    · cases hov : objGet obj pname with
      | vObj fields =>
        by_cases hso : (psvt == "object") = true
        · cases pnested <;> cases stn <;>
            simp [normProp, harr, hmp, hov, hso, hnq, hr3, beqRefl]
        · cases hev : getValidators pvals true sets with
          | some vs =>
            have h1 := hscq vs hev
            cases pnested <;> cases stn <;>
              simp [normProp, harr, hmp, hov, hso, hev, h1, hr3, beqRefl]
          | none =>
            cases pnested <;> cases stn <;>
              simp [normProp, harr, hmp, hov, hso, hev, hr3, beqRefl]
      | vUndefined => cases pnested <;> cases stn <;>
          simp [normProp, harr, hmp, hov, hr3, beqRefl]
      | vNull => cases pnested <;> cases stn <;>
          simp [normProp, harr, hmp, hov, hr3, beqRefl]
      | vBool b => cases pnested <;> cases stn <;>
          simp [normProp, harr, hmp, hov, hr3, beqRefl]
      | vNum m => cases pnested <;> cases stn <;>
          simp [normProp, harr, hmp, hov, hr3, beqRefl]
      | vStr s => cases pnested <;> cases stn <;>
          simp [normProp, harr, hmp, hov, hr3, beqRefl]
      | vArr a => cases pnested <;> cases stn <;>
          simp [normProp, harr, hmp, hov, hr3, beqRefl]
    · by_cases hoo :
        (psvt == "object" && typeofObjectNotNull (objGet obj pname)) = true
      · cases pnested with
        | some c =>
          have h1 := hnsc c rfl
          cases stn <;> simp [normProp, harr, hmp, hoo, h1, hr3, beqRefl]
        | none =>
          cases stn <;> simp [normProp, harr, hmp, hoo, hr3, beqRefl]
      · cases pnested <;> cases stn <;>
          simp [normProp, harr, hmp, hoo, hr3, beqRefl]

mutual

/-- With every reachable rule value-preserving, the container traversal
returns the very object it was handed. -/
theorem ncPres : (c : Container) → (stn : Option String) → (es : ErrSink) →
    (ptr : Ptr) → (chain : List JSValue) → (obj : JSValue) →
    (sets : List String) → containerPreserving c →
    (normalizeChildren c stn es ptr chain obj sets).2 = obj
  | .mk poly tp props cv, stn, es, ptr, chain, obj, sets, hp => by
    simp only [containerPreserving] at hp
    cases poly with
    | false =>
      have he : normalizeChildren (Container.mk false tp props cv) stn es ptr
          chain obj sets =
          normProps props none stn es ptr chain obj sets := by
        simp [normalizeChildren]
      rw [he]
      exact npsPres props none stn es ptr chain obj sets hp.2
    | true =>
      cases hd : objGet obj tp with
      | vStr st =>
        by_cases hany : (props.any fun p => p.name == st) = true
        · have he : normalizeChildren (Container.mk true tp props cv) stn es
              ptr chain obj sets =
              normProps props (some st) stn es ptr chain obj sets := by
            simp [normalizeChildren, hd, hany]
          rw [he]
          exact npsPres props (some st) stn es ptr chain obj sets hp.2
        · simp [normalizeChildren, hd, hany]
      | vUndefined => simp [normalizeChildren, hd]
      | vNull => simp [normalizeChildren, hd]
      | vBool b => simp [normalizeChildren, hd]
      | vNum m => simp [normalizeChildren, hd]
      | vArr a => simp [normalizeChildren, hd]
      | vObj fs => simp [normalizeChildren, hd]
termination_by c stn es ptr chain obj sets hp => (sizeOf c, 0, 0)

/-- With every reachable rule value-preserving, the property loop returns
the very object it was handed. -/
theorem npsPres : (props : List PropDesc) → (sel stn : Option String) →
    (es : ErrSink) → (ptr : Ptr) → (chain : List JSValue) → (obj : JSValue) →
    (sets : List String) → propsPreserving props →
    (normProps props sel stn es ptr chain obj sets).2 = obj
  | [], sel, stn, es, ptr, chain, obj, sets, hp => by simp [normProps]
  | p :: rest, sel, stn, es, ptr, chain, obj, sets, hp => by
    simp only [propsPreserving] at hp
    have h1 : (normProp p sel stn es ptr chain obj sets).2 = obj :=
      nppPres p sel stn es ptr chain obj sets hp.1
    simp only [normProps]
    rw [npsPres rest sel stn _ ptr chain _ sets hp.2]
    exact h1
termination_by props sel stn es ptr chain obj sets hp =>
  (sizeOf props, 3, 0)

/-- With every reachable rule value-preserving, one property-loop step
returns the very object it was handed. -/
theorem nppPres : (p : PropDesc) → (sel stn : Option String) →
    (es : ErrSink) → (ptr : Ptr) → (chain : List JSValue) → (obj : JSValue) →
    (sets : List String) → propPreserving p →
    (normProp p sel stn es ptr chain obj sets).2 = obj
  | .mk pname pview psub parr pmap psvt (some cN) pvals, sel, stn, es, ptr,
      chain, obj, sets, hp => by
    simp only [propPreserving] at hp
    obtain ⟨hcv, hnc⟩ := hp
    have hcN : containerPreserving cN := by
      simpa only [optContainerPreserving] using hnc
    have hr3 : ∀ es2 ptr2 chain2 v,
        (runChainOpt (getValidators pvals false sets) es2 ptr2 chain2 v).2 =
          v :=
      fun es2 ptr2 chain2 v => runChainOpt_preserving _ es2 ptr2 chain2 v
        (getValidators_chainsPreserving pvals false sets hcv)
    have hgv1 : optChainPreserving (getValidators pvals true sets) :=
      getValidators_chainsPreserving pvals true sets hcv
    cases pview with
    | true => cases stn <;> simp [normProp]
    | false =>
      cases psub with
      | true =>
        by_cases hsel : (sel == some pname) = true
        · have h1 : (normalizeChildren cN sel es ptr chain obj sets).2 =
              obj :=
            ncPres cN sel es ptr chain obj sets hcN
          cases stn <;>
            simp only [normProp, hsel, Bool.false_eq_true, if_false,
              eq_self_iff_true, if_true] <;>
            exact h1
        · cases stn <;> simp [normProp, hsel]
      | false =>
        refine normProp_ordinary_preserving pname parr pmap psvt (some cN)
          pvals sel stn es ptr chain obj sets hr3 ?_ ?_ ?_ ?_ ?_
        · exact fun es2 ptr2 chain2 done2 elems idx =>
            noePres (some cN) (getValidators pvals true sets) es2 ptr2 chain2
              done2 elems idx sets hnc hgv1
        · exact fun es2 ptr2 chain2 fields =>
            nqPres (some cN) (getValidators pvals true sets) es2 ptr2 chain2
              fields (fields.map Prod.fst) sets hnc hgv1 (fun k hk => hk)
        · intro vs hev es2 ptr2 chain2 done2 todo idx
          rw [hev] at hgv1
          exact normScalarElems_preserving vs es2 ptr2 chain2 done2 todo idx
            (by simpa only [optChainPreserving] using hgv1)
        · intro vs hev es2 ptr2 chain2 fields keys
          rw [hev] at hgv1
          exact normScalarEntries_preserving vs es2 ptr2 chain2 fields keys
            (by simpa only [optChainPreserving] using hgv1)
        · intro c2 heq es2 ptr2 chain2 v
          injection heq with h2
          cases h2
          exact ncPres cN none es2 ptr2 chain2 v sets hcN
  | .mk pname pview psub parr pmap psvt none pvals, sel, stn, es, ptr,
      chain, obj, sets, hp => by
    simp only [propPreserving] at hp
    obtain ⟨hcv, hnc⟩ := hp
    have hr3 : ∀ es2 ptr2 chain2 v,
        (runChainOpt (getValidators pvals false sets) es2 ptr2 chain2 v).2 =
          v :=
      fun es2 ptr2 chain2 v => runChainOpt_preserving _ es2 ptr2 chain2 v
        (getValidators_chainsPreserving pvals false sets hcv)
    have hgv1 : optChainPreserving (getValidators pvals true sets) :=
      getValidators_chainsPreserving pvals true sets hcv
    cases pview with
    | true => cases stn <;> simp [normProp]
    | false =>
      cases psub with
      | true =>
        by_cases hsel : (sel == some pname) = true
        · cases stn <;> simp [normProp, hsel]
        · cases stn <;> simp [normProp, hsel]
      | false =>
        refine normProp_ordinary_preserving pname parr pmap psvt none
          pvals sel stn es ptr chain obj sets hr3 ?_ ?_ ?_ ?_ ?_
        · exact fun es2 ptr2 chain2 done2 elems idx =>
            noePres none (getValidators pvals true sets) es2 ptr2 chain2
              done2 elems idx sets hnc hgv1
        · exact fun es2 ptr2 chain2 fields =>
            nqPres none (getValidators pvals true sets) es2 ptr2 chain2
              fields (fields.map Prod.fst) sets hnc hgv1 (fun k hk => hk)
        · intro vs hev es2 ptr2 chain2 done2 todo idx
          rw [hev] at hgv1
          exact normScalarElems_preserving vs es2 ptr2 chain2 done2 todo idx
            (by simpa only [optChainPreserving] using hgv1)
        · intro vs hev es2 ptr2 chain2 fields keys
          rw [hev] at hgv1
          exact normScalarEntries_preserving vs es2 ptr2 chain2 fields keys
            (by simpa only [optChainPreserving] using hgv1)
        · exact fun c2 heq => Option.noConfusion heq
termination_by p sel stn es ptr chain obj sets hp => (sizeOf p, 3, 0)

/-- With a preserving nested container and a preserving element chain, the
object array element loop rebuilds the element list unchanged. -/
theorem noePres : (nestedOpt : Option Container) →
    (evs : Option (List Validator)) → (es : ErrSink) → (ptr2 : Ptr) →
    (chain2 : List JSValue) → (done todo : List JSValue) → (idx : Nat) →
    (sets : List String) → optContainerPreserving nestedOpt →
    optChainPreserving evs →
    (normObjElems nestedOpt evs es ptr2 chain2 done todo idx sets).2 =
      done ++ todo
  | nestedOpt, evs, es, ptr2, chain2, done, [], idx, sets, hnc, hcp => by
    simp [normObjElems]
  | some c, evs, es, ptr2, chain2, done, e0 :: rest, idx, sets, hnc, hcp => by
    have hc : containerPreserving c := by
      simpa only [optContainerPreserving] using hnc
    have h1 : ((if typeofObjectNotNull e0 = true then
        normalizeChildren c none es (ptr2 ++ [toString idx])
          (chain2 ++ [JSValue.vArr (done ++ e0 :: rest)]) e0 sets
      else (es, e0)) : ErrSink × JSValue).2 = e0 := by
      by_cases ht : typeofObjectNotNull e0 = true
      · rw [if_pos ht]
        exact ncPres c none es _ _ e0 sets hc
      · rw [if_neg ht]
    have hrec : ∀ es2 d2,
        (normObjElems (some c) evs es2 ptr2 chain2 d2 rest (idx + 1)
          sets).2 = d2 ++ rest :=
      fun es2 d2 => noePres (some c) evs es2 ptr2 chain2 d2 rest (idx + 1)
        sets hnc hcp
    cases evs with
    | none =>
      simp only [normObjElems]
      rw [h1, hrec]
      simp
    | some vs =>
      have hvs : ∀ vl ∈ vs, Preserving vl := by
        simpa only [optChainPreserving] using hcp
      simp only [normObjElems]
      rw [h1, runChain_preserving vs _ _ _ _ hvs, beqRefl, ite_self, hrec]
      simp
  | none, evs, es, ptr2, chain2, done, e0 :: rest, idx, sets, hnc, hcp => by
    have hrec : ∀ es2 d2,
        (normObjElems none evs es2 ptr2 chain2 d2 rest (idx + 1)
          sets).2 = d2 ++ rest :=
      fun es2 d2 => noePres none evs es2 ptr2 chain2 d2 rest (idx + 1)
        sets hnc hcp
    cases evs with
    | none =>
      simp only [normObjElems, ite_self]
      rw [hrec]
      simp
    | some vs =>
      have hvs : ∀ vl ∈ vs, Preserving vl := by
        simpa only [optChainPreserving] using hcp
      simp only [normObjElems, ite_self]
      rw [runChain_preserving vs _ _ _ _ hvs, beqRefl, ite_self, hrec]
      simp
termination_by nestedOpt evs es ptr2 chain2 done todo idx sets hnc hcp =>
  (sizeOf nestedOpt, 2, todo.length)

/-- With a preserving nested container and a preserving element chain, the
object map entry loop leaves the entry list unchanged (each slot is written
back the value it already holds). -/
theorem nqPres : (nestedOpt : Option Container) →
    (evs : Option (List Validator)) → (es : ErrSink) → (ptr2 : Ptr) →
    (chain2 : List JSValue) → (fields : List (String × JSValue)) →
    (keys : List String) → (sets : List String) →
    optContainerPreserving nestedOpt → optChainPreserving evs →
    (∀ k ∈ keys, k ∈ fields.map Prod.fst) →
    (normObjEntries nestedOpt evs es ptr2 chain2 fields keys sets).2 = fields
  | nestedOpt, evs, es, ptr2, chain2, fields, [], sets, hnc, hcp, hk => by
    simp [normObjEntries]
  | some c, evs, es, ptr2, chain2, fields, k :: restKeys, sets, hnc, hcp,
      hk => by
    have hc : containerPreserving c := by
      simpa only [optContainerPreserving] using hnc
    have hset : setField fields k (objGet (.vObj fields) k) = fields :=
      setField_objGet_self fields k (hk k (List.mem_cons_self _ _))
    have h1 : ((if typeofObjectNotNull (objGet (JSValue.vObj fields) k) =
          true then
        normalizeChildren c none es (ptr2 ++ [k])
          (chain2 ++ [JSValue.vObj fields]) (objGet (JSValue.vObj fields) k)
          sets
      else (es, objGet (JSValue.vObj fields) k)) : ErrSink × JSValue).2 =
        objGet (JSValue.vObj fields) k := by
      by_cases ht : typeofObjectNotNull (objGet (JSValue.vObj fields) k) =
          true
      · rw [if_pos ht]
        exact ncPres c none es _ _ (objGet (JSValue.vObj fields) k) sets hc
      · rw [if_neg ht]
    have hrec : ∀ es2,
        (normObjEntries (some c) evs es2 ptr2 chain2 fields restKeys
          sets).2 = fields :=
      fun es2 => nqPres (some c) evs es2 ptr2 chain2 fields restKeys sets
        hnc hcp (fun k2 hk2 => hk k2 (List.mem_cons_of_mem _ hk2))
    cases evs with
    | none =>
      simp only [normObjEntries]
      rw [h1, hset, hrec]
    | some vs =>
      have hvs : ∀ vl ∈ vs, Preserving vl := by
        simpa only [optChainPreserving] using hcp
      simp only [normObjEntries]
      rw [h1, runChain_preserving vs _ _ _ _ hvs, beqRefl, ite_self, hset,
        hrec]
  | none, evs, es, ptr2, chain2, fields, k :: restKeys, sets, hnc, hcp,
      hk => by
    have hset : setField fields k (objGet (.vObj fields) k) = fields :=
      setField_objGet_self fields k (hk k (List.mem_cons_self _ _))
    have hrec : ∀ es2,
        (normObjEntries none evs es2 ptr2 chain2 fields restKeys
          sets).2 = fields :=
      fun es2 => nqPres none evs es2 ptr2 chain2 fields restKeys sets
        hnc hcp (fun k2 hk2 => hk k2 (List.mem_cons_of_mem _ hk2))
    cases evs with
    | none =>
      simp only [normObjEntries, ite_self]
      rw [hset, hrec]
    | some vs =>
      have hvs : ∀ vl ∈ vs, Preserving vl := by
        simpa only [optChainPreserving] using hcp
      simp only [normObjEntries, ite_self]
      rw [runChain_preserving vs _ _ _ _ hvs, beqRefl, ite_self, hset, hrec]
termination_by nestedOpt evs es ptr2 chain2 fields keys sets hnc hcp hk =>
  (sizeOf nestedOpt, 2, keys.length)

end

/-- C8: every write-back site of the traversal assigns the chained result
into the containing object or array slot exactly when it differs — modulo
the model's structural identity standing in for the source's `!==` — from
the originally read slot value.  Stated per site: the plain scalar property
(lines 197–208) returns the untouched `obj` when the chain's final value
compares equal to the original and `objSet obj name value` otherwise; a
scalar array element (lines 149–150) keeps the original element on equality
and takes the chain value otherwise; a scalar map entry (lines 185–186) is
left unwritten on equality and reassigned the chain value otherwise; an
object array element (lines 134–141) keeps the child-normalized value (the
reference the slot already holds) on equality and takes the chain value
otherwise; an object map entry (lines 173–174) likewise.  Consequently,
when every rule in every reachable chain returns its value argument
unchanged, the whole traversal returns the very record object it was
given — no write happens at any level. -/
theorem writeBackOnlyOnChange_spec :
    (∀ c stn es ptr chain obj sets, containerPreserving c →
      (normalizeChildren c stn es ptr chain obj sets).2 = obj) ∧
    (∀ pname psvt pvals vs sel stn es ptr chain obj sets,
      (psvt == "object") = false →
      getValidators pvals false sets = some vs →
      (normProp (PropDesc.mk pname false false false false psvt none pvals)
          sel stn es ptr chain obj sets).2 =
        (if JSValue.beq (runChain vs es
              (ptr ++ [match stn with
                | some sn => sn ++ ":" ++ pname
                | none => pname]) (chain ++ [obj]) (objGet obj pname)).2
            (objGet obj pname) = true then obj
         else objSet obj pname (runChain vs es
              (ptr ++ [match stn with
                | some sn => sn ++ ":" ++ pname
                | none => pname]) (chain ++ [obj]) (objGet obj pname)).2)) ∧
    (∀ vs es ptr2 chain2 done2 e0 rest idx,
      (JSValue.beq (runChain vs es (ptr2 ++ [toString idx])
          (chain2 ++ [JSValue.vArr (done2 ++ e0 :: rest)]) e0).2 e0 =
            false →
        normScalarElems vs es ptr2 chain2 done2 (e0 :: rest) idx =
          normScalarElems vs
            (runChain vs es (ptr2 ++ [toString idx])
              (chain2 ++ [JSValue.vArr (done2 ++ e0 :: rest)]) e0).1
            ptr2 chain2
            (done2 ++ [(runChain vs es (ptr2 ++ [toString idx])
              (chain2 ++ [JSValue.vArr (done2 ++ e0 :: rest)]) e0).2])
            rest (idx + 1)) ∧
      (JSValue.beq (runChain vs es (ptr2 ++ [toString idx])
          (chain2 ++ [JSValue.vArr (done2 ++ e0 :: rest)]) e0).2 e0 =
            true →
        normScalarElems vs es ptr2 chain2 done2 (e0 :: rest) idx =
          normScalarElems vs
            (runChain vs es (ptr2 ++ [toString idx])
              (chain2 ++ [JSValue.vArr (done2 ++ e0 :: rest)]) e0).1
            ptr2 chain2 (done2 ++ [e0]) rest (idx + 1))) ∧
    (∀ vs es ptr2 chain2 fields k restKeys,
      (JSValue.beq (runChain vs es (ptr2 ++ [k])
          (chain2 ++ [JSValue.vObj fields])
          (objGet (JSValue.vObj fields) k)).2
          (objGet (JSValue.vObj fields) k) = false →
        normScalarEntries vs es ptr2 chain2 fields (k :: restKeys) =
          normScalarEntries vs
            (runChain vs es (ptr2 ++ [k]) (chain2 ++ [JSValue.vObj fields])
              (objGet (JSValue.vObj fields) k)).1
            ptr2 chain2
            (setField fields k
              (runChain vs es (ptr2 ++ [k])
                (chain2 ++ [JSValue.vObj fields])
                (objGet (JSValue.vObj fields) k)).2)
            restKeys) ∧
      (JSValue.beq (runChain vs es (ptr2 ++ [k])
          (chain2 ++ [JSValue.vObj fields])
          (objGet (JSValue.vObj fields) k)).2
          (objGet (JSValue.vObj fields) k) = true →
        normScalarEntries vs es ptr2 chain2 fields (k :: restKeys) =
          normScalarEntries vs
            (runChain vs es (ptr2 ++ [k]) (chain2 ++ [JSValue.vObj fields])
              (objGet (JSValue.vObj fields) k)).1
            ptr2 chain2 fields restKeys)) ∧
    (∀ nestedOpt vs es ptr2 chain2 done2 e0 rest idx sets
        (r1 r2 : ErrSink × JSValue),
      r1 = (if typeofObjectNotNull e0 = true then
          (match nestedOpt with
            | some c => normalizeChildren c none es (ptr2 ++ [toString idx])
                (chain2 ++ [JSValue.vArr (done2 ++ e0 :: rest)]) e0 sets
            | none => (es, e0))
        else (es, e0)) →
      r2 = runChain vs r1.1 (ptr2 ++ [toString idx])
          (chain2 ++ [JSValue.vArr (done2 ++ e0 :: rest)]) r1.2 →
      ((JSValue.beq r2.2 e0 = false →
        normObjElems nestedOpt (some vs) es ptr2 chain2 done2 (e0 :: rest)
            idx sets =
          normObjElems nestedOpt (some vs) r2.1 ptr2 chain2
            (done2 ++ [r2.2]) rest (idx + 1) sets) ∧
      (JSValue.beq r2.2 e0 = true →
        normObjElems nestedOpt (some vs) es ptr2 chain2 done2 (e0 :: rest)
            idx sets =
          normObjElems nestedOpt (some vs) r2.1 ptr2 chain2
            (done2 ++ [r1.2]) rest (idx + 1) sets))) ∧
    (∀ nestedOpt vs es ptr2 chain2 fields k restKeys sets
        (r1 r2 : ErrSink × JSValue),
      r1 = (if typeofObjectNotNull (objGet (JSValue.vObj fields) k) =
          true then
          (match nestedOpt with
            | some c => normalizeChildren c none es (ptr2 ++ [k])
                (chain2 ++ [JSValue.vObj fields])
                (objGet (JSValue.vObj fields) k) sets
            | none => (es, objGet (JSValue.vObj fields) k))
        else (es, objGet (JSValue.vObj fields) k)) →
      r2 = runChain vs r1.1 (ptr2 ++ [k])
          (chain2 ++ [JSValue.vObj fields]) r1.2 →
      ((JSValue.beq r2.2 (objGet (JSValue.vObj fields) k) = false →
        normObjEntries nestedOpt (some vs) es ptr2 chain2 fields
            (k :: restKeys) sets =
          normObjEntries nestedOpt (some vs) r2.1 ptr2 chain2
            (setField fields k r2.2) restKeys sets) ∧
      (JSValue.beq r2.2 (objGet (JSValue.vObj fields) k) = true →
        normObjEntries nestedOpt (some vs) es ptr2 chain2 fields
            (k :: restKeys) sets =
          normObjEntries nestedOpt (some vs) r2.1 ptr2 chain2
            (setField fields k r1.2) restKeys sets))) := by
  refine ⟨?_, ?_, ?_, ?_, ?_, ?_⟩
  · exact fun c stn es ptr chain obj sets hp =>
      ncPres c stn es ptr chain obj sets hp
  · intro pname psvt pvals vs sel stn es ptr chain obj sets hsvt hev
    cases stn <;> simp [normProp, hsvt, hev, runChainOpt]
  · intro vs es ptr2 chain2 done2 e0 rest idx
    constructor
    · intro h
      simp only [normScalarElems]
      rw [if_neg (by simp [h])]
    · intro h
      simp only [normScalarElems]
      rw [if_pos h]
  · intro vs es ptr2 chain2 fields k restKeys
    constructor
    · intro h
      simp only [normScalarEntries]
      rw [if_neg (by simp [h])]
    · intro h
      simp only [normScalarEntries]
      rw [if_pos h]
  · intro nestedOpt vs es ptr2 chain2 done2 e0 rest idx sets r1 r2 hr1 hr2
    cases nestedOpt with
    | some c =>
      have hr1b : r1 = (if typeofObjectNotNull e0 = true then
          normalizeChildren c none es (ptr2 ++ [toString idx])
            (chain2 ++ [JSValue.vArr (done2 ++ e0 :: rest)]) e0 sets
        else (es, e0)) := hr1
      subst hr2
      subst hr1b
      constructor
      · intro h
        simp only [normObjElems, h, Bool.false_eq_true, if_false]
      · intro h
        simp only [normObjElems]
        rw [if_pos h]
    | none =>
      have hr1b : r1 = (if typeofObjectNotNull e0 = true then
          ((es, e0) : ErrSink × JSValue) else (es, e0)) := hr1
      subst hr2
      subst hr1b
      constructor
      · intro h
        simp only [normObjElems, h, Bool.false_eq_true, if_false]
      · intro h
        simp only [normObjElems]
        rw [if_pos h]
  · intro nestedOpt vs es ptr2 chain2 fields k restKeys sets r1 r2 hr1 hr2
    cases nestedOpt with
    | some c =>
      have hr1b : r1 = (if typeofObjectNotNull
            (objGet (JSValue.vObj fields) k) = true then
          normalizeChildren c none es (ptr2 ++ [k])
            (chain2 ++ [JSValue.vObj fields])
            (objGet (JSValue.vObj fields) k) sets
        else (es, objGet (JSValue.vObj fields) k)) := hr1
      subst hr2
      subst hr1b
      constructor
      · intro h
        simp only [normObjEntries, h, Bool.false_eq_true, if_false]
      · intro h
        simp only [normObjEntries]
        rw [if_pos h]
    | none =>
      have hr1b : r1 = (if typeofObjectNotNull
            (objGet (JSValue.vObj fields) k) = true then
          ((es, objGet (JSValue.vObj fields) k) : ErrSink × JSValue)
        else (es, objGet (JSValue.vObj fields) k)) := hr1
      subst hr2
      subst hr1b
      constructor
      · intro h
        simp only [normObjEntries, h, Bool.false_eq_true, if_false]
      · intro h
        simp only [normObjEntries]
        rw [if_pos h]

/-- Witness for C8: a report-only (value-preserving) chain on field `x`
hands the very record object back unchanged, while a chain that rewrites
the value to `9` makes the engine write the new value into the record; at
each collection-element site, the chain that changes the value gets it
assigned into the slot (`9` replaces `5`), and the report-only chain leaves
the slot's value `5` in place. -/
theorem writeBackOnlyOnChange_spec_witness :
    (normalizeChildren
        (Container.mk false "t"
          [PropDesc.mk "x" false false false false "number" none
            (some [("*", [reportAtCurrent "{badX}"])])] none)
        none [] [] [] (.vObj [("x", .vNum 5)]) ["*"]).2 =
      .vObj [("x", .vNum 5)] ∧
    (normProp (PropDesc.mk "x" false false false false "number" none
          (some [("*", [fun es2 p2 c2 v2 => ([], JSValue.vNum 9)])]))
        none none [] [] [] (.vObj [("x", .vNum 5)]) ["*"]).2 =
      .vObj [("x", .vNum 9)] ∧
    (normScalarElems [fun es2 p2 c2 v2 => ([], JSValue.vNum 9)] [] ["f"] []
        [] [.vNum 5] 0).2 = [.vNum 9] ∧
    (normScalarElems [reportAtCurrent "{m}"] [] ["f"] [] [] [.vNum 5] 0).2 =
      [.vNum 5] ∧
    (normScalarEntries [fun es2 p2 c2 v2 => ([], JSValue.vNum 9)] [] ["m"]
        [] [("x", .vNum 5)] ["x"]).2 = [("x", .vNum 9)] ∧
    (normScalarEntries [reportAtCurrent "{m}"] [] ["m"] [] [("x", .vNum 5)]
        ["x"]).2 = [("x", .vNum 5)] ∧
    (normObjElems none (some [fun es2 p2 c2 v2 => ([], JSValue.vNum 9)]) []
        ["f"] [] [] [.vNum 5] 0 ["*"]).2 = [.vNum 9] ∧
    (normObjElems none (some [reportAtCurrent "{m}"]) [] ["f"] [] []
        [.vNum 5] 0 ["*"]).2 = [.vNum 5] ∧
    (normObjEntries none (some [fun es2 p2 c2 v2 => ([], JSValue.vNum 9)])
        [] ["m"] [] [("x", .vNum 5)] ["x"] ["*"]).2 = [("x", .vNum 9)] ∧
    (normObjEntries none (some [reportAtCurrent "{m}"]) [] ["m"] []
        [("x", .vNum 5)] ["x"] ["*"]).2 = [("x", .vNum 5)] := by
  have hg : objGet (JSValue.vObj [("x", JSValue.vNum 5)]) "x" =
      JSValue.vNum 5 := rfl
  refine ⟨?_, ?_, ?_, ?_, ?_, ?_, ?_, ?_, ?_, ?_⟩
  · refine writeBackOnlyOnChange_spec.1 _ none [] [] [] _ ["*"] ?_
    simp only [containerPreserving, propsPreserving, propPreserving,
      chainsPreserving, optContainerPreserving]
    refine ⟨trivial, ⟨?_, trivial⟩, trivial⟩
    intro sv hsv vl hvl
    simp only [List.mem_singleton] at hsv
    subst hsv
    simp only [List.mem_singleton] at hvl
    subst hvl
    intro es3 p3 c3 v3
    rfl
  · have h := writeBackOnlyOnChange_spec.2.1 "x" "number"
      (some [("*", [fun es2 p2 c2 v2 => ([], JSValue.vNum 9)])])
      [fun es2 p2 c2 v2 => ([], JSValue.vNum 9)] none none [] [] []
      (.vObj [("x", .vNum 5)]) ["*"] (by decide)
      (by simp [getValidators, gvLoop])
    rw [h]
    simp [runChain, objGet, JSValue.beq, objSet, setField]
  · have h := (writeBackOnlyOnChange_spec.2.2.1
      [fun es2 p2 c2 v2 => ([], JSValue.vNum 9)] [] ["f"] [] []
      (.vNum 5) [] 0).1 (by simp [runChain, JSValue.beq])
    rw [h]
    rfl
  · have h := (writeBackOnlyOnChange_spec.2.2.1 [reportAtCurrent "{m}"] []
      ["f"] [] [] (.vNum 5) [] 0).2
      (by simp [runChain, reportAtCurrent, beqRefl])
    rw [h]
    rfl
  · have h := (writeBackOnlyOnChange_spec.2.2.2.1
      [fun es2 p2 c2 v2 => ([], JSValue.vNum 9)] [] ["m"] []
      [("x", .vNum 5)] "x" []).1 (by simp [runChain, hg, JSValue.beq])
    rw [h]
    rfl
  · have h := (writeBackOnlyOnChange_spec.2.2.2.1 [reportAtCurrent "{m}"]
      [] ["m"] [] [("x", .vNum 5)] "x" []).2
      (by simp [runChain, hg, reportAtCurrent, beqRefl])
    rw [h]
    rfl
  · have h := ((writeBackOnlyOnChange_spec.2.2.2.2.1 none
      [fun es2 p2 c2 v2 => ([], JSValue.vNum 9)] [] ["f"] [] []
      (.vNum 5) [] 0 ["*"] _ _ rfl rfl).1
      (by simp [typeofObjectNotNull, runChain, JSValue.beq]))
    rw [h]
    simp only [normObjElems]
    rfl
  · have h := ((writeBackOnlyOnChange_spec.2.2.2.2.1 none
      [reportAtCurrent "{m}"] [] ["f"] [] [] (.vNum 5) [] 0 ["*"]
      _ _ rfl rfl).2
      (by simp [typeofObjectNotNull, runChain, reportAtCurrent, beqRefl]))
    rw [h]
    simp only [normObjElems]
    rfl
  · have h := ((writeBackOnlyOnChange_spec.2.2.2.2.2 none
      [fun es2 p2 c2 v2 => ([], JSValue.vNum 9)] [] ["m"] []
      [("x", .vNum 5)] "x" [] ["*"] _ _ rfl rfl).1
      (by simp [typeofObjectNotNull, runChain, hg, JSValue.beq]))
    rw [h]
    simp only [normObjEntries]
    rfl
  · have h := ((writeBackOnlyOnChange_spec.2.2.2.2.2 none
      [reportAtCurrent "{m}"] [] ["m"] [] [("x", .vNum 5)] "x" [] ["*"]
      _ _ rfl rfl).2
      (by simp [typeofObjectNotNull, runChain, hg, reportAtCurrent,
        beqRefl]))
    rw [h]
    simp only [normObjEntries]
    rfl
